import Mathlib

/-!
Verification development for the `ai-dadmode` repository.

The repository consists of three Python scripts:
* `obsidian-gmail/imap_ingest_md_only.py` — IMAP → Markdown mail ingester
  with a persistent deduplication index (namespace `ImapIngest`);
* `daily-briefing/fetch_today_events.py` — calendar event fetcher and
  filter (namespace `DailyBriefing`);
* `youtube_transcript_extractor.py` — YouTube URL parsing and transcript
  CLI (namespace `YtExtract`).

The scripts are shallowly embedded: pure functions become Lean functions,
the ingestion loop becomes an explicit state-passing fold, filesystem and
index state become association lists, and calls into external libraries
(hashing, MIME decoding, datetime parsing, HTML munging) are modelled by
concrete deterministic stand-ins.  Each such stand-in carries a doc
comment saying what it abstracts.
-/

set_option maxRecDepth 100000

namespace PyModel

/-! ## Association-list maps

Python `dict`s (the dedupe index's two maps, the filesystem view, the
legacy state) are modelled by association lists with last-write-wins
assignment. -/

/-- A string-keyed map, modelling a Python `dict` with string keys. -/
abbrev Map (β : Type) : Type := List (String × β)

/-- `m[k]` lookup (`dict.get`): the value bound to `k`, if any. -/
def mget {β : Type} (m : Map β) (k : String) : Option β :=
  (m.find? (fun kv => kv.1 = k)).map (fun kv => kv.2)

/-- `m[k] = v` assignment: rebinds `k`, dropping any previous binding. -/
def mset {β : Type} (m : Map β) (k : String) (v : β) : Map β :=
  (k, v) :: m.filter (fun kv => kv.1 ≠ k)

/-- `base.update(upd)` (Python `dict.update`): entries of `upd` overwrite
entries of `base`. -/
def mUpdate {β : Type} (base upd : Map β) : Map β :=
  upd.foldl (fun acc kv => mset acc kv.1 kv.2) base

theorem mget_mset_self {β : Type} (m : Map β) (k : String) (v : β) :
    mget (mset m k v) k = some v := by
  simp [mget, mset, List.find?]

theorem find?_filter_ne {β : Type} (k k' : String) (h : k' ≠ k) :
    ∀ (m : List (String × β)),
      (m.filter (fun kv => kv.1 ≠ k)).find? (fun kv => kv.1 = k')
        = m.find? (fun kv => kv.1 = k')
  | [] => rfl
  | kv :: rest => by
    rw [List.filter_cons]
    by_cases hk : kv.1 = k
    · have e1 : (decide (kv.1 ≠ k)) = false := by simp [hk]
      rw [e1]
      simp only [Bool.false_eq_true, if_false]
      rw [find?_filter_ne k k' h rest]
      have e2 : (kv :: rest).find? (fun kv => decide (kv.1 = k'))
          = rest.find? (fun kv => decide (kv.1 = k')) := by
        apply List.find?_cons_of_neg
        simp only [decide_eq_true_eq]
        intro he
        exact h (he.symm.trans hk)
      rw [e2]
    · have e1 : (decide (kv.1 ≠ k)) = true := by simp [hk]
      rw [e1]
      simp only [if_true]
      by_cases hk' : kv.1 = k'
      · rw [List.find?_cons_of_pos _ (by simp [hk']),
          List.find?_cons_of_pos _ (by simp [hk'])]
      · rw [List.find?_cons_of_neg _ (by simp [hk']),
          List.find?_cons_of_neg _ (by simp [hk'])]
        exact find?_filter_ne k k' h rest

theorem mget_mset_ne {β : Type} (m : Map β) (k k' : String) (v : β)
    (h : k' ≠ k) : mget (mset m k v) k' = mget m k' := by
  unfold mget mset
  have e2 : ((k, v) :: m.filter fun kv => kv.1 ≠ k).find? (fun kv => kv.1 = k')
      = (m.filter fun kv => kv.1 ≠ k).find? (fun kv => kv.1 = k') := by
    apply List.find?_cons_of_neg
    simp only [decide_eq_true_eq]
    exact fun he => h he.symm
  rw [e2, find?_filter_ne k k' h m]

/-- Members of `mset m k v` are `(k, v)` or members of `m`. -/
theorem mem_mset {β : Type} {m : Map β} {k : String} {v : β}
    {kv : String × β} (h : kv ∈ mset m k v) : kv = (k, v) ∨ kv ∈ m := by
  rw [mset, List.mem_cons] at h
  rcases h with h | h
  · exact Or.inl h
  · exact Or.inr (List.mem_of_mem_filter h)

/-- If no entry of `upd` binds `k`, `mUpdate` leaves the binding of `k`
in `base` unchanged. -/
theorem mget_mUpdate_of_not_bound {β : Type} (base upd : Map β) (k : String)
    (h : ∀ kv ∈ upd, kv.1 ≠ k) : mget (mUpdate base upd) k = mget base k := by
  induction upd generalizing base with
  | nil => rfl
  | cons kv rest ih =>
    simp only [mUpdate, List.foldl] at *
    rw [ih (mset base kv.1 kv.2) (fun kv' h' => h kv' (List.mem_cons_of_mem _ h'))]
    exact mget_mset_ne base kv.1 k kv.2 (fun he => h kv (List.mem_cons_self _ _) he.symm)

/-- If every entry of `upd` binding `k` binds it to `v`, and `base` binds
`k` to `v`, then so does the update. -/
theorem mget_mUpdate_stable {β : Type} (base upd : Map β) (k : String) (v : β)
    (h : ∀ kv ∈ upd, kv.1 = k → kv.2 = v) (hb : mget base k = some v) :
    mget (mUpdate base upd) k = some v := by
  induction upd generalizing base with
  | nil => exact hb
  | cons kv rest ih =>
    simp only [mUpdate, List.foldl] at *
    apply ih (mset base kv.1 kv.2) (fun kv' h' hk => h kv' (List.mem_cons_of_mem _ h') hk)
    by_cases hk : kv.1 = k
    · rw [← hk] at hb ⊢
      rw [h kv (List.mem_cons_self _ _) hk]
      exact mget_mset_self base kv.1 v
    · rw [mget_mset_ne base kv.1 k kv.2 (fun he => hk he.symm)]
      exact hb

/-! ## String primitives

The byte-position-based `String` functions of the core library
(`String.trim`, `String.take`, …) do not reduce inside the kernel, so
the Python string operations are modelled by character-list equivalents
with the same semantics. -/

/-- Drop characters satisfying `p` from both ends of a character list. -/
def dropEnds (p : Char → Bool) (cs : List Char) : List Char :=
  ((cs.dropWhile p).reverse.dropWhile p).reverse

/-- Python `str.strip()`: whitespace dropped from both ends. -/
def pyStrip (s : String) : String :=
  String.mk (dropEnds Char.isWhitespace s.data)

/-- Python `str.lower()`. -/
def sLower (s : String) : String := String.mk (s.data.map Char.toLower)

/-- Python `s[:n]`. -/
def sTake (s : String) (n : Nat) : String := String.mk (s.data.take n)

/-- Python `s[-n:]`: the last (up to) `n` characters. -/
def sTakeRight (s : String) (n : Nat) : String :=
  String.mk (s.data.drop (s.data.length - n))

/-- Python `s[n:]`. -/
def sDrop (s : String) (n : Nat) : String := String.mk (s.data.drop n)

/-- Split a character list at a separator character. -/
def splitCharList (sep : Char) : List Char → List (List Char)
  | [] => [[]]
  | c :: cs =>
    match splitCharList sep cs with
    | [] => [[]]
    | g :: gs => if c = sep then [] :: g :: gs else (c :: g) :: gs

/-- Python `s.split(sep)` for a one-character separator (also
`String.splitOn` semantics: `""` yields `[""]`). -/
def splitOnChar (sep : Char) (s : String) : List String :=
  (splitCharList sep s.data).map String.mk

/-- `String.toNat?` semantics: all-digit nonempty strings parse. -/
def sToNatQ (s : String) : Option Nat :=
  if s.data ≠ [] ∧ s.data.all Char.isDigit then
    some (s.data.foldl (fun n c => n * 10 + (c.toNat - 48)) 0)
  else none

/-- Python `sub in s` for a one-character `sub`. -/
def sContainsChar (s : String) (c : Char) : Bool := s.data.contains c

/-- Python `s.startswith(p)`. -/
def sStartsWith (s p : String) : Bool := p.data.isPrefixOf s.data

end PyModel

namespace ImapIngest

open PyModel

/-! ## Labels (`LABEL_ALIASES`, `canonicalize_labels`, `wants_processing`,
`infer_doc_type`) -/

/-- The fixed alias table mapping legacy label names to canonical ones. -/
def LABEL_ALIASES : Map String :=
  [("AI/Ingest", "Save"),
   ("ai/ingest", "Save"),
   ("To-Embed", "Save"),
   ("Slack Thread", "Slack-Thread"),
   ("AI/Slack-Thread", "Slack-Thread")]

/-- `LABEL_ALIASES.get(lbl.strip(), lbl.strip())`: one label through the
alias table. -/
def canon1 (lbl : String) : String :=
  (mget LABEL_ALIASES (pyStrip lbl)).getD (pyStrip lbl)

/-- `canonicalize_labels`: map each raw label through the alias table and
append it to the output unless already present. -/
def canonicalize_labels (labels : List String) : List String :=
  labels.foldl (fun out lbl =>
    let l := canon1 lbl
    if l ∈ out then out else out ++ [l]) []

/-- `wants_processing`: true when a `Save` or `Slack-Thread` label is
present. -/
def wants_processing (labels : List String) : Bool :=
  labels.any (fun l => l = "Save" ∨ l = "Slack-Thread")

/-- `infer_doc_type`: `slack` when the `Slack-Thread` label is present,
else `email`. -/
def infer_doc_type (labels : List String) : String :=
  if "Slack-Thread" ∈ labels then "slack" else "email"

/-- Specification-side description of first-seen-order deduplication:
keep the head, drop its later duplicates, recurse. -/
def dedupFirst : List String → List String
  | [] => []
  | a :: l => a :: dedupFirst (l.filter (fun b => b ≠ a))
  termination_by l => l.length
  decreasing_by
    simp only [List.length_cons]
    exact Nat.lt_succ_of_le (List.length_filter_le _ _)

/-! ## Checksums (`checksum_for`)

`checksum_for` hashes `json.dumps(payload, sort_keys=True)`.  The payload
is the eleven-field dictionary assembled in `build_markdown`; it is
modelled as an association list of string keys and `PVal` values, and the
key-sorted serialization is made explicit. -/

/-- One parsed address (`parse_addr_list` element `{name, email}`). -/
structure Addr where
  name : String
  email : String
deriving DecidableEq, Repr

/-- A JSON value appearing in the checksum payload. -/
inductive PVal where
  | s (v : String)
  | addrs (v : List Addr)
  | labels (v : List String)
  | onat (v : Option Nat)
deriving DecidableEq, Repr

/-- A checksum payload: the field list of the Python dict, in assembly
order. -/
abbrev Payload := List (String × PVal)

/-- Modelled from the spec: JSON string quoting (escaping of special
characters by the external `json` library is abstracted away). -/
def jstr (s : String) : String := "\"" ++ s ++ "\""

/-- JSON serialization of one payload value, with `json.dumps` default
separators; nested address dicts are emitted with their keys in sorted
order (`email` before `name`), as `sort_keys=True` does. -/
def dumpVal : PVal → String
  | .s v => jstr v
  | .addrs l => "[" ++ String.intercalate ", "
      (l.map (fun a => "\x7b" ++ jstr "email" ++ ": " ++ jstr a.email ++ ", "
        ++ jstr "name" ++ ": " ++ jstr a.name ++ "\x7d")) ++ "]"
  | .labels l => "[" ++ String.intercalate ", " (l.map jstr) ++ "]"
  | .onat (some n) => toString n
  | .onat none => "null"

/-- Lexicographic order on character lists by code point: the key order
`json.dumps(..., sort_keys=True)` sorts by. -/
def lexLe : List Char → List Char → Bool
  | [], _ => true
  | _ :: _, [] => false
  | a :: as, b :: bs =>
    if a.toNat = b.toNat then lexLe as bs
    else decide (a.toNat < b.toNat)

theorem lexLe_total : ∀ (x y : List Char), lexLe x y = true ∨ lexLe y x = true
  | [], _ => Or.inl rfl
  | _ :: _, [] => Or.inr rfl
  | a :: as, b :: bs => by
    by_cases hab : a.toNat = b.toNat
    · simp only [lexLe, if_pos hab, if_pos hab.symm]
      exact lexLe_total as bs
    · have hba : ¬ b.toNat = a.toNat := fun h => hab h.symm
      simp only [lexLe, if_neg hab, if_neg hba, decide_eq_true_eq]
      omega

theorem lexLe_trans : ∀ (x y z : List Char),
    lexLe x y = true → lexLe y z = true → lexLe x z = true
  | [], _, _, _, _ => rfl
  | a :: as, [], z, h1, _ => by simp [lexLe] at h1
  | a :: as, b :: bs, [], _, h2 => by simp [lexLe] at h2
  | a :: as, b :: bs, c :: cs, h1, h2 => by
    simp only [lexLe] at h1 h2 ⊢
    by_cases hab : a.toNat = b.toNat
    · by_cases hbc : b.toNat = c.toNat
      · rw [if_pos hab] at h1
        rw [if_pos hbc] at h2
        rw [if_pos (hab.trans hbc)]
        exact lexLe_trans as bs cs h1 h2
      · rw [if_pos hab] at h1
        rw [if_neg hbc, decide_eq_true_eq] at h2
        rw [if_neg (hab ▸ hbc), decide_eq_true_eq]
        omega
    · by_cases hbc : b.toNat = c.toNat
      · rw [if_neg hab, decide_eq_true_eq] at h1
        rw [if_neg (hbc ▸ hab), decide_eq_true_eq]
        omega
      · rw [if_neg hab, decide_eq_true_eq] at h1
        rw [if_neg hbc, decide_eq_true_eq] at h2
        rw [if_neg (by omega), decide_eq_true_eq]
        omega

theorem lexLe_antisymm : ∀ (x y : List Char),
    lexLe x y = true → lexLe y x = true → x = y
  | [], [], _, _ => rfl
  | [], _ :: _, _, h2 => by simp [lexLe] at h2
  | _ :: _, [], h1, _ => by simp [lexLe] at h1
  | a :: as, b :: bs, h1, h2 => by
    by_cases hab : a.toNat = b.toNat
    · simp only [lexLe, if_pos hab, if_pos hab.symm] at h1 h2
      rw [lexLe_antisymm as bs h1 h2, Char.ext (UInt32.ext hab)]
    · have hba : ¬ b.toNat = a.toNat := fun h => hab h.symm
      simp only [lexLe, if_neg hab, if_neg hba, decide_eq_true_eq] at h1 h2
      omega

/-- Key order used by `sort_keys=True`. -/
def keyLE (a b : String × PVal) : Prop := lexLe a.1.data b.1.data = true

/-- Strict key order, used to show sorted payloads with distinct keys
are unique. -/
def keyLT (a b : String × PVal) : Prop := keyLE a b ∧ a.1 ≠ b.1

instance : DecidableRel keyLE :=
  fun _ _ => inferInstanceAs (Decidable (_ = true))

instance : IsTotal (String × PVal) keyLE :=
  ⟨fun a b => lexLe_total a.1.data b.1.data⟩

instance : IsTrans (String × PVal) keyLE :=
  ⟨fun a b c h1 h2 => lexLe_trans a.1.data b.1.data c.1.data h1 h2⟩

instance : IsAntisymm (String × PVal) keyLT :=
  ⟨fun a b h1 h2 => by
    have hd : a.1.data = b.1.data := lexLe_antisymm _ _ h1.1 h2.1
    have hs : a.1 = b.1 := congrArg String.mk hd
    exact absurd hs h1.2⟩

/-- `json.dumps(payload, sort_keys=True)`: serialize the fields in key
order. -/
def dumps (p : Payload) : String :=
  "\x7b" ++ String.intercalate ", "
    ((List.insertionSort keyLE p).map (fun kv => jstr kv.1 ++ ": " ++ dumpVal kv.2))
    ++ "\x7d"

/-- Modelled from the spec: the SHA-256 hex digest (external `hashlib`) is
abstracted as a deterministic — here injective — digest of the serialized
payload string. -/
def sha256hex (s : String) : String := s

/-- `checksum_for`: `"sha256:" + sha256(json.dumps(payload, sort_keys=True))`. -/
def checksum_for (p : Payload) : String :=
  "sha256:" ++ sha256hex (dumps p)

/-- The key-sorted form of a payload is determined by the payload's field
multiset when keys are distinct. -/
theorem insertionSort_eq_of_perm (p q : Payload) (hperm : p.Perm q)
    (hkeys : (p.map Prod.fst).Nodup) :
    List.insertionSort keyLE p = List.insertionSort keyLE q := by
  have hp : (List.insertionSort keyLE p).Perm p := List.perm_insertionSort keyLE p
  have hq : (List.insertionSort keyLE q).Perm q := List.perm_insertionSort keyLE q
  have hpq : (List.insertionSort keyLE p).Perm (List.insertionSort keyLE q) :=
    (hp.trans hperm).trans hq.symm
  have hnodup_p : ((List.insertionSort keyLE p).map Prod.fst).Nodup :=
    ((hp.map Prod.fst).nodup_iff).mpr hkeys
  have hnodup_q : ((List.insertionSort keyLE q).map Prod.fst).Nodup :=
    ((hpq.map Prod.fst).nodup_iff).mp hnodup_p
  have hsorted_p : (List.insertionSort keyLE p).Sorted keyLE :=
    List.sorted_insertionSort keyLE p
  have hsorted_q : (List.insertionSort keyLE q).Sorted keyLE :=
    List.sorted_insertionSort keyLE q
  have strict : ∀ (l : Payload), l.Sorted keyLE → (l.map Prod.fst).Nodup →
      l.Sorted keyLT := by
    intro l hs hn
    have hne : l.Pairwise (fun a b : String × PVal => a.1 ≠ b.1) :=
      (List.pairwise_map).mp hn
    exact (hs.and hne).imp (fun h => ⟨h.1, h.2⟩)
  exact List.eq_of_perm_of_sorted hpq
    (strict _ hsorted_p hnodup_p) (strict _ hsorted_q hnodup_q)

/-! ## Header and timestamp utilities -/

/-- Python `a or b` for an optional string `a`: `b` when `a` is `None` or
empty. -/
def pyOrStr (a : Option String) (b : String) : String :=
  match a with
  | some s => if s = "" then b else s
  | none => b

/-- Modelled from the spec: instants (values of the external `datetime`
library) are abstract tick counts; ISO-8601 rendering is modelled as
decimal rendering of the tick count. -/
def isoOf (t : Nat) : String := toString t

/-- `datetime.fromisoformat` applied to a string this model rendered. -/
def fromIso (s : String) : Nat := (sToNatQ s).getD 0

/-- Modelled from the spec: the calendar year of an instant, as computed
by the external `datetime` library. -/
def yearOf (t : Nat) : Nat := 1970 + t / 31536000

/-- Modelled from the spec: the calendar month (1–12) of an instant, as
computed by the external `datetime` library. -/
def monthOf (t : Nat) : Nat := (t / 2592000) % 12 + 1

/-- Modelled from the spec: `decode_words` decodes MIME encoded words via
the external `email.header` module; for the plain headers modelled here
the text passes through unchanged (`None` becomes `""`). -/
def decode_words (s : Option String) : String := s.getD ""

/-- Modelled from the spec: `parse_addr_list` builds `{name, email}` pairs
via the external `email.utils.getaddresses`; modelled for plain
comma-separated address lists with empty display names. -/
def parse_addr_list (hdr : String) : List Addr :=
  if hdr = "" then []
  else (splitOnChar ',' hdr).map (fun a => { name := "", email := pyStrip a })

/-- Modelled from the spec: RFC-2822 date parsing by the external
`email.utils.parsedate_to_datetime`; a header rendering a tick count
parses to it, any other header raises (modelled as `none`). -/
def parseDateHdr (s : String) : Option Nat := sToNatQ s

/-- `parsedate_to_iso`: parse the `Date` header if present and parseable,
else fall back to the fetch's `INTERNALDATE`, else to the current
wall-clock time `now`. -/
def parsedate_to_iso (hdr : Option String) (fallback : Option Nat)
    (now : Nat) : String :=
  match hdr with
  | some h =>
    if h = "" then isoOf (fallback.getD now)
    else
      match parseDateHdr h with
      | some d => isoOf d
      | none => isoOf (fallback.getD now)
  | none => isoOf (fallback.getD now)

/-- A `\w` character of the slug regexes: alphanumeric or underscore. -/
def slugWordChar (c : Char) : Bool := c.isAlphanum || c = '_'

/-- `re.sub(r"\s+", "-", ·)` worker: `inRun` records whether the
previous character belonged to the current whitespace run. -/
def squashSpacesGo (inRun : Bool) : List Char → List Char
  | [] => []
  | c :: cs =>
    if c.isWhitespace then
      if inRun then squashSpacesGo true cs
      else '-' :: squashSpacesGo true cs
    else c :: squashSpacesGo false cs

/-- `re.sub(r"\s+", "-", ·)`: each whitespace run becomes one dash. -/
def squashSpaces (cs : List Char) : List Char := squashSpacesGo false cs

/-- `re.sub(r"-{2,}", "-", ·)` worker: `inRun` records whether the
previous character was a dash of the current run. -/
def squashDashesGo (inRun : Bool) : List Char → List Char
  | [] => []
  | c :: cs =>
    if c = '-' then
      if inRun then squashDashesGo true cs
      else '-' :: squashDashesGo true cs
    else c :: squashDashesGo false cs

/-- `re.sub(r"-{2,}", "-", ·)`: each dash run becomes one dash. -/
def squashDashes (cs : List Char) : List Char := squashDashesGo false cs

/-- Python `str.strip(chars)`: drop the given characters from both ends. -/
def stripChar (cs : List Char) (targets : List Char) : List Char :=
  ((cs.dropWhile (targets.contains ·)).reverse.dropWhile (targets.contains ·)).reverse

/-- `slugify`: lower-case, drop non-word characters, turn whitespace runs
into dashes, strip and collapse dashes, truncate. -/
def slugify (text : String) (maxLen : Nat := 80) : String :=
  let s0 := sLower (if text = "" then "email" else text)
  let s1 := s0.data.filter (fun c => slugWordChar c || c.isWhitespace || c = '-')
  let s2 := stripChar (squashSpaces s1) ['-']
  let s3 := squashDashes s2
  let s4 := String.mk s3
  sTake (if s4 = "" then "email" else s4) maxLen

/-- Modelled from the spec: the MD5 hex digest (external `hashlib.md5`)
abstracted as a deterministic digest of its input. -/
def md5hex (s : String) : String := s

/-- Python truthiness of the optional numeric `X-GM-MSGID`
(`if gm_msgid:`): `None` and `0` are falsy; a truthy id yields the index
key `str(gm_msgid)`. -/
def gmKey (gm : Option Nat) : Option String :=
  match gm with
  | some g => if g = 0 then none else some (toString g)
  | none => none

/-- `.strip().strip("<>")` applied to a `Message-ID` header value. -/
def stripAngles (s : String) : String :=
  String.mk (stripChar (pyStrip s).data ['<', '>'])

/-! ## Message bodies (`body_from_email`, `html_to_md_quick`) -/

/-- One MIME part of a fetched message. -/
structure Part where
  disposition : Option String
  ctype : String
  content : String
deriving DecidableEq, Repr

/-- A parsed email message: the headers read by `build_markdown` (the two
spellings `Message-Id`/`Message-ID` are collapsed into one field, as the
code takes the first available), its MIME parts, and its raw source text
(the `msg.as_string()` fallback). -/
structure EmailMsg where
  subject : Option String
  fromH : Option String
  toH : Option String
  ccH : Option String
  messageIdHdr : Option String
  dateHdr : Option String
  multipart : Bool
  parts : List Part
  rawString : String
deriving DecidableEq, Repr

/-- Modelled from the spec: `html_to_md_quick`'s regex passes (tag
stripping, heading and list rewriting) are abstracted away; the HTML
entity replacements and final trim are kept. -/
def html_to_md_quick (s : String) : String :=
  if s = "" then ""
  else pyStrip ((((s.replace "&nbsp;" " ").replace "&amp;" "&").replace
    "&lt;" "<").replace "&gt;" ">")

/-- `body_from_email`: collect non-attachment `text/plain` and `text/html`
parts (walking parts when multipart, else the single payload), prefer the
joined plain text, then converted HTML, then the raw message source
truncated to 40000 characters. -/
def body_from_email (m : EmailMsg) : String × String :=
  let pair : List String × List String :=
    if m.multipart then
      m.parts.foldl (fun acc p =>
        if p.disposition = some "attachment" then acc
        else if p.ctype = "text/plain" then (acc.1 ++ [pyStrip p.content], acc.2)
        else if p.ctype = "text/html" then (acc.1, acc.2 ++ [p.content])
        else acc) ([], [])
    else
      match m.parts with
      | [p] =>
        if p.ctype = "text/plain" then ([pyStrip p.content], [])
        else if p.ctype = "text/html" then ([], [p.content])
        else ([], [])
      | _ => ([], [])
  let plain := pyStrip (String.intercalate "\n\n" (pair.1.filter (fun x => x ≠ "")))
  let html := pyStrip (String.intercalate "\n\n" (pair.2.filter (fun x => x ≠ "")))
  if plain ≠ "" then (plain, "plain")
  else if html ≠ "" then (html_to_md_quick html, "html->md")
  else (sTake m.rawString 40000, "raw")

/-- The raw `BODY[]` bytes of a fetched message: either bytes that
`email.message_from_bytes` parses, or malformed bytes that make it raise. -/
inductive RawBytes where
  | wellFormed (m : EmailMsg)
  | malformed
deriving DecidableEq, Repr

/-- `email.message_from_bytes`, with the raised exception as `none`. -/
def message_from_bytes : RawBytes → Option EmailMsg
  | .wellFormed m => some m
  | .malformed => none

/-! ## Persisted documents, the dedupe index, and `build_markdown` -/

/-- A persisted Markdown document, modelled by the structured-header
fields the ingester reads back: the checksum line
(`read_existing_checksum`) and the optional `message_id` / `x_gm_msgid`
front-matter ids (`extract_ids_from_file_head`; absent when the YAML
value was empty, since the extraction regexes require at least one
character / digit). -/
structure FileDoc where
  checksum : String
  message_id : Option String
  x_gm_msgid : Option String
deriving DecidableEq, Repr

/-- The persisted-document store: a map from absolute path to document. -/
abbrev Fs := Map FileDoc

/-- `read_existing_checksum`: the checksum recorded in the document at
`path`, or `none` when no document exists there. -/
def read_existing_checksum (fs : Fs) (path : String) : Option String :=
  (mget fs path).map (fun d => d.checksum)

/-- The dedupe index: `by_gm_msgid` and `by_message_id`, each mapping a
string identifier to a document path. -/
structure Index where
  by_gm_msgid : Map String
  by_message_id : Map String
deriving DecidableEq, Repr

def emptyIndex : Index := { by_gm_msgid := [], by_message_id := [] }

/-- `scan_recent_for_existing`: rebuild a minimal id→path map from the
headers of persisted documents (later documents overwrite earlier ones,
as in the plain dict assignments of the Python scan).  The bounded
recent-years window and the directory layout are abstracted: the scan
covers the persisted documents of the modelled store. -/
def scanStep (acc : Index) (pd : String × FileDoc) : Index :=
  let acc1 : Index :=
    match pd.2.message_id with
    | some mid => { acc with by_message_id := mset acc.by_message_id mid pd.1 }
    | none => acc
  match pd.2.x_gm_msgid with
  | some g => { acc1 with by_gm_msgid := mset acc1.by_gm_msgid g pd.1 }
  | none => acc1

def scan_recent_for_existing (fs : Fs) : Index :=
  fs.foldl scanStep emptyIndex

/-- `index.update(seeded)` on both maps. -/
def mergeIndex (idx seeded : Index) : Index :=
  { by_gm_msgid := mUpdate idx.by_gm_msgid seeded.by_gm_msgid,
    by_message_id := mUpdate idx.by_message_id seeded.by_message_id }

/-- The `meta` dict returned by `build_markdown`. -/
structure Meta where
  path_abs : String
  path_rel : String
  checksum : String
  doc_type : String
  message_id : String
  x_gm_msgid : Option String
deriving DecidableEq, Repr

/-- The run configuration: vault root, the `--dry-run` flag, the set of
paths whose document write raises (modelling filesystem write failures),
and the run's wall-clock instant. -/
structure Env where
  vault_root : String
  dry_run : Bool
  write_fail_paths : List String
  now : Nat
deriving DecidableEq, Repr

/-- `build_markdown`: normalize the message into its canonical document:
subject/addresses/date/labels/body, the default year/quarter-bucketed
path, the checksum payload and checksum, and the front-matter fields (the
rendered Markdown text is modelled by the `FileDoc` of header fields the
ingester can read back; the `ingested_at: now` line appears only in the
rendered header, not in the checksum payload). -/
def build_markdown (env : Env) (msg : EmailMsg) (gm_labels : List String)
    (gm_msgid gm_thrid : Option Nat) (internaldate : Option Nat) :
    String × FileDoc × Meta :=
  let subject := decode_words (some (pyOrStr msg.subject "(no subject)"))
  let from_hdr := decode_words (some (pyOrStr msg.fromH ""))
  let to_hdr := decode_words (some (pyOrStr msg.toH ""))
  let cc_hdr := decode_words (some (pyOrStr msg.ccH ""))
  let message_id := stripAngles (pyOrStr msg.messageIdHdr "")
  let from_list := parse_addr_list from_hdr
  let to_list := parse_addr_list to_hdr
  let cc_list := parse_addr_list cc_hdr
  let date_iso := parsedate_to_iso msg.dateHdr internaldate env.now
  let body_md := (body_from_email msg).1
  let canon_labels := canonicalize_labels gm_labels
  let doc_type := infer_doc_type canon_labels
  let t := fromIso date_iso
  let y := yearOf t
  let mo := monthOf t
  let quarter := (mo - 1) / 3 + 1
  let quarter_str := "Q" ++ toString quarter ++ sTakeRight (toString y) 2
  let slug := slugify subject
  let short :=
    sTakeRight
      (match gmKey gm_msgid with
       | some k => k
       | none => md5hex (if message_id = "" then subject else message_id)) 6
  let rel_path := "Emails/" ++ toString y ++ "/" ++ quarter_str ++ "/"
    ++ slug ++ "-" ++ short ++ ".md"
  let abs_path := env.vault_root ++ "/" ++ rel_path
  let payload : Payload :=
    [("subject", .s subject),
     ("from", .addrs from_list),
     ("to", .addrs to_list),
     ("cc", .addrs cc_list),
     ("date", .s date_iso),
     ("labels", .labels canon_labels),
     ("body", .s (sTake body_md 200000)),
     ("doc_type", .s doc_type),
     ("gm_msgid", .onat gm_msgid),
     ("gm_thrid", .onat gm_thrid),
     ("message_id", .s message_id)]
  let checksum := checksum_for payload
  let fdoc : FileDoc :=
    { checksum := checksum,
      message_id := if message_id = "" then none else some message_id,
      x_gm_msgid := gmKey gm_msgid }
  let meta : Meta :=
    { path_abs := abs_path, path_rel := rel_path, checksum := checksum,
      doc_type := doc_type, message_id := message_id,
      x_gm_msgid := gmKey gm_msgid }
  (abs_path, fdoc, meta)

/-! ## The ingestion loop (`main`) -/

/-- One legacy-state entry (`path`, `checksum`, `type`). -/
structure LegacyEntry where
  path : String
  checksum : String
  doctype : String
deriving DecidableEq, Repr

/-- One line of the ingester's per-record log stream. -/
inductive LogLine where
  | noBody (uid : Nat)
  | parseError (uid : Nat)
  | skipNoLabels (uid : Nat)
  | duplicate (path : String)
  | action (verb : String) (deduped : Bool) (path : String)
deriving DecidableEq, Repr

/-- The in-memory state of one run: the persisted-document store, the
dedupe index, the legacy state, the index dirty flag, the processed
counter and the log stream. -/
structure IngestState where
  fs : Fs
  index : Index
  legacy : Map LegacyEntry
  index_updated : Bool
  processed : Nat
  log : List LogLine
deriving DecidableEq, Repr

/-- One fetched IMAP record: uid, optional raw body, Gmail labels and
ids, and the internal date. -/
structure Fetched where
  uid : Nat
  raw : Option RawBytes
  gm_labels : List String
  gm_msgid : Option Nat
  gm_thrid : Option Nat
  internaldate : Option Nat
deriving DecidableEq, Repr

/-- The `if/elif` index lookup: the primary `X-GM-MSGID` mapping first,
the `Message-ID` mapping as fallback (empty ids are falsy and skipped). -/
def lookup1 (idx : Index) (gmk : Option String) (message_id : String) :
    Option String :=
  match gmk with
  | some k =>
    match mget idx.by_gm_msgid k with
    | some p => some p
    | none => if message_id = "" then none else mget idx.by_message_id message_id
  | none => if message_id = "" then none else mget idx.by_message_id message_id

/-- The dedupe block of `main`: index lookup, and on a miss a fallback
scan of the persisted store merged into the index (flagging it updated),
followed by a second lookup.  Returns the existing path (if any), the
possibly scan-merged index, and whether the index was flagged updated. -/
def resolveExisting (fs : Fs) (idx : Index) (gmk : Option String)
    (message_id : String) : Option String × Index × Bool :=
  match lookup1 idx gmk message_id with
  | some p => (some p, idx, false)
  | none =>
    let idx' := mergeIndex idx (scan_recent_for_existing fs)
    (lookup1 idx' gmk message_id, idx', true)

/-- `target_path.relative_to(vault_root)` for a path under the root. -/
def relOf (root path : String) : String := sDrop path (root.data.length + 1)

/-- Lines 495–498 of `main`: record `(primary id, target)` in
`by_gm_msgid`, flagging the index updated only on actual change. -/
def recordPrimary (st : IngestState) (gmk : Option String) (target : String) :
    IngestState :=
  match gmk with
  | some k =>
    if mget st.index.by_gm_msgid k = some target then st
    else { st with
      index := { st.index with by_gm_msgid := mset st.index.by_gm_msgid k target },
      index_updated := true }
  | none => st

/-- Lines 499–501 of `main`: record `(message id, target)` in
`by_message_id`, flagging the index updated only on actual change. -/
def recordSecondary (st : IngestState) (message_id target : String) :
    IngestState :=
  if message_id = "" then st
  else if mget st.index.by_message_id message_id = some target then st
  else { st with
    index := { st.index with
      by_message_id := mset st.index.by_message_id message_id target },
    index_updated := true }

/-- Lines 503–511 of `main`: refresh the legacy-state entry for the
record when missing or stale. -/
def recordLegacy (env : Env) (st : IngestState) (r : Fetched)
    (target : String) (meta : Meta) : IngestState :=
  let legacy_key :=
    match r.gm_msgid with
    | some g => if g = 0 then toString r.uid else toString g
    | none => toString r.uid
  let rel := relOf env.vault_root target
  let entry : LegacyEntry :=
    { path := rel, checksum := meta.checksum, doctype := meta.doc_type }
  match mget st.legacy legacy_key with
  | some e =>
    if e.checksum ≠ meta.checksum ∨ e.path ≠ rel then
      { st with legacy := mset st.legacy legacy_key entry }
    else st
  | none => { st with legacy := mset st.legacy legacy_key entry }

/-- The post-classification bookkeeping of one record: record
`(id, target)` in both index maps, refresh the legacy state entry, and
bump the processed counter. -/
def finishRecord (env : Env) (st : IngestState) (r : Fetched)
    (message_id : String) (target : String) (meta : Meta) : IngestState :=
  let s3 := recordLegacy env
    (recordSecondary (recordPrimary st (gmKey r.gm_msgid) target) message_id target)
    r target meta
  { s3 with processed := s3.processed + 1 }

/-- The message id a processed record carries into the dedupe lookup
(`(msg.get("Message-Id") or msg.get("Message-ID") or "").strip().strip("<>")`). -/
def recordMid (msg : EmailMsg) : String :=
  stripAngles (pyOrStr msg.messageIdHdr "")

/-- The classification and write of one resolved record (lines 483–492
of `main`, followed by the bookkeeping): compare the stored checksum at
the target with the computed one; on a match log the duplicate and skip
the write; otherwise log the `Update`/`Write` action and, unless dry-run,
write the rendered document (a write failure raises, modelled as
`Except.error` carrying the state at the raise point); then run the
bookkeeping. -/
def classifyAndWrite (env : Env) (st : IngestState) (r : Fetched)
    (existing : Option String) (idx1 : Index) (upd1 : Bool)
    (message_id target : String) (fdoc : FileDoc) (meta : Meta) :
    Except IngestState IngestState :=
  let stored := read_existing_checksum st.fs target
  if stored = some meta.checksum then
    let st1 := { st with
      index := idx1,
      index_updated := upd1,
      log := st.log ++ [.duplicate target] }
    .ok (finishRecord env st1 r message_id target meta)
  else
    let verb := if (mget st.fs target).isSome then "Update" else "Write"
    let st1 := { st with
      index := idx1,
      index_updated := upd1,
      log := st.log ++ [.action verb existing.isSome target] }
    if env.dry_run then .ok (finishRecord env st1 r message_id target meta)
    else if target ∈ env.write_fail_paths then .error st1
    else
      let st2 := { st1 with fs := mset st1.fs target fdoc }
      .ok (finishRecord env st2 r message_id target meta)

/-- The processing of one labelled, parsed record: dedupe resolution,
document building, then classification, write and bookkeeping. -/
def processRecord (env : Env) (st : IngestState) (r : Fetched)
    (msg : EmailMsg) : Except IngestState IngestState :=
  let message_id := recordMid msg
  let res := resolveExisting st.fs st.index (gmKey r.gm_msgid) message_id
  let bm := build_markdown env msg (canonicalize_labels r.gm_labels)
    r.gm_msgid r.gm_thrid r.internaldate
  classifyAndWrite env st r res.1 res.2.1 (st.index_updated || res.2.2)
    message_id (res.1.getD bm.1) bm.2.1 bm.2.2

/-- One iteration of the per-record loop of `main`.  Records without a
body or with unparseable bytes are logged and skipped; records without a
canonical processing label are skipped; otherwise the record is resolved
through the dedupe index, classified, written unless unchanged (or
dry-run), and booked into index and legacy state. -/
def stepRecord (env : Env) (st : IngestState) (r : Fetched) :
    Except IngestState IngestState :=
  match r.raw with
  | none => .ok { st with log := st.log ++ [.noBody r.uid] }
  | some raw =>
    match message_from_bytes raw with
    | none => .ok { st with log := st.log ++ [.parseError r.uid] }
    | some msg =>
      let canon := canonicalize_labels r.gm_labels
      if ¬ wants_processing canon then
        .ok { st with log := st.log ++ [.skipNoLabels r.uid] }
      else
        processRecord env st r msg

/-- The `target_path` a processed record resolves to: the index's
existing location when present, else the freshly derived default path. -/
def stepTarget (env : Env) (st : IngestState) (r : Fetched) (msg : EmailMsg) :
    String :=
  ((resolveExisting st.fs st.index (gmKey r.gm_msgid) (recordMid msg)).1).getD
    (build_markdown env msg (canonicalize_labels r.gm_labels)
      r.gm_msgid r.gm_thrid r.internaldate).1

/-- The checksum a record's canonical document computes in this run. -/
def recordChecksum (env : Env) (r : Fetched) (msg : EmailMsg) : String :=
  (build_markdown env msg (canonicalize_labels r.gm_labels)
    r.gm_msgid r.gm_thrid r.internaldate).2.2.checksum

/-- The per-record loop over a batch; a raised write failure aborts the
remaining batch. -/
def runRecords (env : Env) (st : IngestState) :
    List Fetched → Except IngestState IngestState
  | [] => .ok st
  | r :: rs =>
    match stepRecord env st r with
    | .ok st' => runRecords env st' rs
    | .error e => .error e

/-- The persistence outcome of a completed run: the final in-memory
state, the index file contents written back (only when dirty and not a
dry run), and the legacy state file contents written back (only when not
a dry run). -/
structure RunResult where
  final : IngestState
  savedIndex : Option Index
  savedLegacy : Option (Map LegacyEntry)
deriving DecidableEq, Repr

/-- A whole run over a fetched batch: the loop, then the end-of-run
persistence of index and legacy state. -/
def runIngest (env : Env) (st : IngestState) (recs : List Fetched) :
    Except IngestState RunResult :=
  match runRecords env st recs with
  | .error e => .error e
  | .ok stf =>
    .ok { final := stf,
          savedIndex := if stf.index_updated ∧ ¬env.dry_run then some stf.index else none,
          savedLegacy := if ¬env.dry_run then some stf.legacy else none }

/-! ## The deduplication invariant (claim C1) -/

/-- Every persisted document claiming primary id `k` lies at `loc`. -/
def fsClaims (fs : Fs) (k loc : String) : Prop :=
  ∀ pd ∈ fs, pd.2.x_gm_msgid = some k → pd.1 = loc

/-- The deduplication invariant for primary identifier key `k`: the index
maps `k` to `loc`, and every persisted document claiming `k` lies at
`loc`. -/
def DedupInv (st : IngestState) (k loc : String) : Prop :=
  mget st.index.by_gm_msgid k = some loc ∧ fsClaims st.fs k loc

instance (fs : Fs) (k loc : String) : Decidable (fsClaims fs k loc) :=
  inferInstanceAs (Decidable (∀ pd ∈ fs, _ → _))

instance (st : IngestState) (k loc : String) : Decidable (DedupInv st k loc) :=
  inferInstanceAs (Decidable (_ ∧ _))

theorem scanStep_by_gm_mem {acc : Index} {pd : String × FileDoc}
    {kv : String × String} (h : kv ∈ (scanStep acc pd).by_gm_msgid) :
    (∃ g, pd.2.x_gm_msgid = some g ∧ kv = (g, pd.1)) ∨ kv ∈ acc.by_gm_msgid := by
  unfold scanStep at h
  rcases hx : pd.2.x_gm_msgid with _ | g
  all_goals rcases hm : pd.2.message_id with _ | mid
  all_goals simp only [hx, hm] at h
  · exact Or.inr h
  · exact Or.inr h
  · rcases mem_mset h with h | h
    · exact Or.inl ⟨g, rfl, h⟩
    · exact Or.inr h
  · rcases mem_mset h with h | h
    · exact Or.inl ⟨g, rfl, h⟩
    · exact Or.inr h

theorem scan_fold_by_gm (k loc : String) :
    ∀ (l : List (String × FileDoc)) (acc : Index),
      (∀ pd ∈ l, pd.2.x_gm_msgid = some k → pd.1 = loc) →
      (∀ kv ∈ acc.by_gm_msgid, kv.1 = k → kv.2 = loc) →
      ∀ kv ∈ (l.foldl scanStep acc).by_gm_msgid, kv.1 = k → kv.2 = loc := by
  intro l
  induction l with
  | nil => intro acc _ hacc; exact hacc
  | cons pd rest ih =>
    intro acc hl hacc
    simp only [List.foldl_cons]
    apply ih
    · intro pd' h'
      exact hl pd' (List.mem_cons_of_mem _ h')
    · intro kv hkv hk1
      rcases scanStep_by_gm_mem hkv with ⟨g, hg, hkveq⟩ | hin
      · subst hkveq
        exact hl pd (List.mem_cons_self _ _) (hk1 ▸ hg)
      · exact hacc kv hin hk1

/-- Documents all at `loc`: every scan entry for key `k` maps to `loc`. -/
theorem scan_by_gm_claims (fs : Fs) (k loc : String) (h : fsClaims fs k loc) :
    ∀ kv ∈ (scan_recent_for_existing fs).by_gm_msgid, kv.1 = k → kv.2 = loc := by
  unfold scan_recent_for_existing
  exact scan_fold_by_gm k loc fs emptyIndex h (by intro kv hkv; cases hkv)

theorem scan_fold_by_gm_ne (k : String) :
    ∀ (l : List (String × FileDoc)) (acc : Index),
      (∀ pd ∈ l, pd.2.x_gm_msgid ≠ some k) →
      (∀ kv ∈ acc.by_gm_msgid, kv.1 ≠ k) →
      ∀ kv ∈ (l.foldl scanStep acc).by_gm_msgid, kv.1 ≠ k := by
  intro l
  induction l with
  | nil => intro acc _ hacc; exact hacc
  | cons pd rest ih =>
    intro acc hl hacc
    simp only [List.foldl_cons]
    apply ih
    · intro pd' h'
      exact hl pd' (List.mem_cons_of_mem _ h')
    · intro kv hkv
      rcases scanStep_by_gm_mem hkv with ⟨g, hg, hkveq⟩ | hin
      · subst hkveq
        intro hgk
        exact hl pd (List.mem_cons_self _ _) (hgk ▸ hg)
      · exact hacc kv hin

/-- No document claims `k`: the scan leaves `k` unbound. -/
theorem scan_by_gm_unbound (fs : Fs) (k : String)
    (h : ∀ pd ∈ fs, pd.2.x_gm_msgid ≠ some k) :
    ∀ kv ∈ (scan_recent_for_existing fs).by_gm_msgid, kv.1 ≠ k := by
  unfold scan_recent_for_existing
  exact scan_fold_by_gm_ne k fs emptyIndex h (by intro kv hkv; cases hkv)

/-- A primary-index hit makes the lookup ignore the secondary id. -/
theorem lookup1_primary_hit (idx : Index) (k loc mid : String)
    (h : mget idx.by_gm_msgid k = some loc) :
    lookup1 idx (some k) mid = some loc := by
  simp only [lookup1, h]

/-- A primary-index hit short-circuits the dedupe block: no scan, index
unchanged, and the existing location is returned whatever the secondary
id is. -/
theorem resolve_primary_hit (fs : Fs) (idx : Index) (k loc mid : String)
    (h : mget idx.by_gm_msgid k = some loc) :
    resolveExisting fs idx (some k) mid = (some loc, idx, false) := by
  unfold resolveExisting
  rw [lookup1_primary_hit idx k loc mid h]

/-- The dedupe block never unbinds a primary key that agrees with the
persisted store: after the (possibly scan-merged) lookup, `k` still maps
to `loc`. -/
theorem resolve_by_gm_stable (fs : Fs) (idx : Index) (gmk : Option String)
    (mid k loc : String) (hidx : mget idx.by_gm_msgid k = some loc)
    (hfs : fsClaims fs k loc) :
    mget (resolveExisting fs idx gmk mid).2.1.by_gm_msgid k = some loc := by
  unfold resolveExisting
  rcases hl : lookup1 idx gmk mid with _ | p
  · simp only []
    unfold mergeIndex
    exact mget_mUpdate_stable _ _ k loc (scan_by_gm_claims fs k loc hfs) hidx
  · exact hidx

theorem recordPrimary_fs (st : IngestState) (gmk : Option String)
    (target : String) : (recordPrimary st gmk target).fs = st.fs := by
  unfold recordPrimary
  split <;> first | rfl | (split <;> rfl)

theorem recordPrimary_log (st : IngestState) (gmk : Option String)
    (target : String) : (recordPrimary st gmk target).log = st.log := by
  unfold recordPrimary
  split <;> first | rfl | (split <;> rfl)

theorem recordPrimary_legacy (st : IngestState) (gmk : Option String)
    (target : String) : (recordPrimary st gmk target).legacy = st.legacy := by
  unfold recordPrimary
  split <;> first | rfl | (split <;> rfl)

theorem recordPrimary_processed (st : IngestState) (gmk : Option String)
    (target : String) : (recordPrimary st gmk target).processed = st.processed := by
  unfold recordPrimary
  split <;> first | rfl | (split <;> rfl)

theorem recordPrimary_by_mid (st : IngestState) (gmk : Option String)
    (target : String) :
    (recordPrimary st gmk target).index.by_message_id = st.index.by_message_id := by
  unfold recordPrimary
  split <;> first | rfl | (split <;> rfl)

theorem recordPrimary_by_gm_self (st : IngestState) (k target : String) :
    mget (recordPrimary st (some k) target).index.by_gm_msgid k = some target := by
  simp only [recordPrimary]
  split
  next h => exact h
  next h => exact mget_mset_self st.index.by_gm_msgid k target

theorem recordPrimary_by_gm_other (st : IngestState) (gmk : Option String)
    (target k : String) (h : gmk ≠ some k) :
    mget (recordPrimary st gmk target).index.by_gm_msgid k
      = mget st.index.by_gm_msgid k := by
  rcases gmk with _ | k2
  · simp only [recordPrimary]
  · simp only [recordPrimary]
    split
    · rfl
    · exact mget_mset_ne st.index.by_gm_msgid k2 k target
        (fun he => h (by rw [he]))

theorem recordSecondary_fs (st : IngestState) (mid target : String) :
    (recordSecondary st mid target).fs = st.fs := by
  unfold recordSecondary
  split
  · rfl
  · split <;> rfl

theorem recordSecondary_log (st : IngestState) (mid target : String) :
    (recordSecondary st mid target).log = st.log := by
  unfold recordSecondary
  split
  · rfl
  · split <;> rfl

theorem recordSecondary_legacy (st : IngestState) (mid target : String) :
    (recordSecondary st mid target).legacy = st.legacy := by
  unfold recordSecondary
  split
  · rfl
  · split <;> rfl

theorem recordSecondary_processed (st : IngestState) (mid target : String) :
    (recordSecondary st mid target).processed = st.processed := by
  unfold recordSecondary
  split
  · rfl
  · split <;> rfl

theorem recordSecondary_by_gm (st : IngestState) (mid target : String) :
    (recordSecondary st mid target).index.by_gm_msgid = st.index.by_gm_msgid := by
  unfold recordSecondary
  split
  · rfl
  · split <;> rfl

theorem recordLegacy_fs (env : Env) (st : IngestState) (r : Fetched)
    (target : String) (meta : Meta) :
    (recordLegacy env st r target meta).fs = st.fs := by
  simp only [recordLegacy]
  repeat' split
  all_goals rfl

theorem recordLegacy_log (env : Env) (st : IngestState) (r : Fetched)
    (target : String) (meta : Meta) :
    (recordLegacy env st r target meta).log = st.log := by
  simp only [recordLegacy]
  repeat' split
  all_goals rfl

theorem recordLegacy_index (env : Env) (st : IngestState) (r : Fetched)
    (target : String) (meta : Meta) :
    (recordLegacy env st r target meta).index = st.index := by
  simp only [recordLegacy]
  repeat' split
  all_goals rfl

theorem recordLegacy_processed (env : Env) (st : IngestState) (r : Fetched)
    (target : String) (meta : Meta) :
    (recordLegacy env st r target meta).processed = st.processed := by
  simp only [recordLegacy]
  repeat' split
  all_goals rfl

theorem finishRecord_fs (env : Env) (st : IngestState) (r : Fetched)
    (mid target : String) (meta : Meta) :
    (finishRecord env st r mid target meta).fs = st.fs := by
  simp only [finishRecord]
  rw [recordLegacy_fs, recordSecondary_fs, recordPrimary_fs]

theorem finishRecord_log (env : Env) (st : IngestState) (r : Fetched)
    (mid target : String) (meta : Meta) :
    (finishRecord env st r mid target meta).log = st.log := by
  simp only [finishRecord]
  rw [recordLegacy_log, recordSecondary_log, recordPrimary_log]

theorem finishRecord_processed (env : Env) (st : IngestState) (r : Fetched)
    (mid target : String) (meta : Meta) :
    (finishRecord env st r mid target meta).processed = st.processed + 1 := by
  simp only [finishRecord]
  rw [recordLegacy_processed, recordSecondary_processed, recordPrimary_processed]

theorem finishRecord_by_gm_self (env : Env) (st : IngestState) (r : Fetched)
    (mid target k : String) (hk : gmKey r.gm_msgid = some k) :
    mget (finishRecord env st r mid target meta).index.by_gm_msgid k
      = some target := by
  simp only [finishRecord]
  rw [recordLegacy_index, recordSecondary_by_gm, hk]
  exact recordPrimary_by_gm_self _ k target

theorem finishRecord_by_gm_other (env : Env) (st : IngestState) (r : Fetched)
    (mid target k : String) (meta : Meta) (hk : gmKey r.gm_msgid ≠ some k) :
    mget (finishRecord env st r mid target meta).index.by_gm_msgid k
      = mget st.index.by_gm_msgid k := by
  simp only [finishRecord]
  rw [recordLegacy_index, recordSecondary_by_gm]
  exact recordPrimary_by_gm_other st _ target k hk

theorem build_markdown_fdoc_x_gm (env : Env) (msg : EmailMsg)
    (gl : List String) (gm gt idt : Option Nat) :
    (build_markdown env msg gl gm gt idt).2.1.x_gm_msgid = gmKey gm := rfl

theorem build_markdown_fdoc_checksum (env : Env) (msg : EmailMsg)
    (gl : List String) (gm gt idt : Option Nat) :
    (build_markdown env msg gl gm gt idt).2.1.checksum
      = (build_markdown env msg gl gm gt idt).2.2.checksum := rfl

/-- Classification, write and bookkeeping preserve the deduplication
invariant (no write failures assumed): whatever state the record was
classified into, the index still maps `k` to `loc` and all documents
claiming `k` still lie at `loc`. -/
theorem classifyAndWrite_preserves (env : Env) (st : IngestState)
    (r : Fetched) (existing : Option String) (idx1 : Index) (upd1 : Bool)
    (message_id target : String) (fdoc : FileDoc) (meta : Meta)
    (k loc : String)
    (hfail : env.write_fail_paths = [])
    (hfs : fsClaims st.fs k loc)
    (hidx1 : mget idx1.by_gm_msgid k = some loc)
    (htarget : gmKey r.gm_msgid = some k → target = loc)
    (hfdoc : fdoc.x_gm_msgid = gmKey r.gm_msgid) :
    ∃ st', classifyAndWrite env st r existing idx1 upd1 message_id target
        fdoc meta = .ok st' ∧ DedupInv st' k loc := by
  have hgmcase : ∀ (stIn : IngestState), stIn.index = idx1 →
      mget (finishRecord env stIn r message_id target meta).index.by_gm_msgid k
        = some loc := by
    intro stIn hIn
    by_cases hgm : gmKey r.gm_msgid = some k
    · rw [finishRecord_by_gm_self env stIn r message_id target k hgm]
      rw [htarget hgm]
    · rw [finishRecord_by_gm_other env stIn r message_id target k meta hgm, hIn]
      exact hidx1
  unfold classifyAndWrite
  by_cases hdup : read_existing_checksum st.fs target = some meta.checksum
  · rw [if_pos hdup]
    refine ⟨_, rfl, hgmcase _ rfl, ?_⟩
    rw [finishRecord_fs]
    exact hfs
  · rw [if_neg hdup]
    cases hdry : env.dry_run
    · have hmem : ¬ target ∈ env.write_fail_paths := by
        rw [hfail]
        exact List.not_mem_nil target
      simp only [Bool.false_eq_true, if_false, if_neg hmem]
      refine ⟨_, rfl, hgmcase _ rfl, ?_⟩
      rw [finishRecord_fs]
      intro pd hpd hclaim
      rcases mem_mset hpd with hnew | hold
      · subst hnew
        exact htarget (hfdoc ▸ hclaim)
      · exact hfs pd hold hclaim
    · simp only [if_true]
      refine ⟨_, rfl, hgmcase _ rfl, ?_⟩
      rw [finishRecord_fs]
      exact hfs

theorem processRecord_preserves (env : Env) (st : IngestState) (r : Fetched)
    (msg : EmailMsg) (k loc : String)
    (hfail : env.write_fail_paths = [])
    (hinv : DedupInv st k loc) :
    ∃ st', processRecord env st r msg = .ok st' ∧ DedupInv st' k loc := by
  obtain ⟨hidx, hfs⟩ := hinv
  unfold processRecord
  exact classifyAndWrite_preserves env st r _ _ _ _ _ _ _ k loc hfail hfs
    (resolve_by_gm_stable st.fs st.index (gmKey r.gm_msgid) (recordMid msg)
      k loc hidx hfs)
    (fun hgm => by
      rw [hgm, resolve_primary_hit st.fs st.index k loc (recordMid msg) hidx]
      rfl)
    (build_markdown_fdoc_x_gm env msg (canonicalize_labels r.gm_labels)
      r.gm_msgid r.gm_thrid r.internaldate)

/-- Every step of the per-record loop preserves the deduplication
invariant (assuming no write failures). -/
theorem stepRecord_preserves (env : Env) (st : IngestState) (r : Fetched)
    (k loc : String) (hfail : env.write_fail_paths = [])
    (hinv : DedupInv st k loc) :
    ∃ st', stepRecord env st r = .ok st' ∧ DedupInv st' k loc := by
  unfold stepRecord
  rcases hraw : r.raw with _ | raw
  · exact ⟨_, rfl, hinv.1, hinv.2⟩
  · rcases raw with msg | _
    · simp only [message_from_bytes]
      by_cases hw : wants_processing (canonicalize_labels r.gm_labels) = true
      · rw [if_neg (by simp [hw])]
        exact processRecord_preserves env st r msg k loc hfail hinv
      · rw [if_pos (by simp [hw])]
        exact ⟨_, rfl, hinv.1, hinv.2⟩
    · simp only [message_from_bytes]
      exact ⟨_, rfl, hinv.1, hinv.2⟩

/-- A whole batch preserves the deduplication invariant. -/
theorem runRecords_preserves (env : Env) (k loc : String)
    (hfail : env.write_fail_paths = []) :
    ∀ (recs : List Fetched) (st : IngestState), DedupInv st k loc →
      ∃ stf, runRecords env st recs = .ok stf ∧ DedupInv stf k loc := by
  intro recs
  induction recs with
  | nil => intro st hinv; exact ⟨st, rfl, hinv⟩
  | cons r rest ih =>
    intro st hinv
    obtain ⟨st', hstep, hinv'⟩ := stepRecord_preserves env st r k loc hfail hinv
    obtain ⟨stf, hrun, hinvf⟩ := ih st' hinv'
    refine ⟨stf, ?_, hinvf⟩
    unfold runRecords
    rw [hstep]
    exact hrun

/-- Processing a record whose primary id is new (no persisted document
claims it) establishes the deduplication invariant at whatever target
the record resolves to. -/
theorem classifyAndWrite_establishes (env : Env) (st : IngestState)
    (r : Fetched) (existing : Option String) (idx1 : Index) (upd1 : Bool)
    (message_id target : String) (fdoc : FileDoc) (meta : Meta) (k : String)
    (hfail : env.write_fail_paths = [])
    (hfs0 : ∀ pd ∈ st.fs, pd.2.x_gm_msgid ≠ some k)
    (hgm : gmKey r.gm_msgid = some k) :
    ∃ st', classifyAndWrite env st r existing idx1 upd1 message_id target
        fdoc meta = .ok st' ∧ DedupInv st' k target := by
  have hvac : ∀ (fsIn : Fs), fsIn = st.fs → fsClaims fsIn k target := by
    intro fsIn he pd hpd hclaim
    exact absurd hclaim (hfs0 pd (he ▸ hpd))
  unfold classifyAndWrite
  by_cases hdup : read_existing_checksum st.fs target = some meta.checksum
  · rw [if_pos hdup]
    refine ⟨_, rfl, ?_, ?_⟩
    · exact finishRecord_by_gm_self env _ r message_id target k hgm
    · rw [finishRecord_fs]
      exact hvac _ rfl
  · rw [if_neg hdup]
    cases hdry : env.dry_run
    · have hmem : ¬ target ∈ env.write_fail_paths := by
        rw [hfail]
        exact List.not_mem_nil target
      simp only [Bool.false_eq_true, if_false, if_neg hmem]
      refine ⟨_, rfl, ?_, ?_⟩
      · exact finishRecord_by_gm_self env _ r message_id target k hgm
      · rw [finishRecord_fs]
        intro pd hpd hclaim
        rcases mem_mset hpd with hnew | hold
        · rw [hnew]
        · exact absurd hclaim (hfs0 pd hold)
    · simp only [if_true]
      refine ⟨_, rfl, ?_, ?_⟩
      · exact finishRecord_by_gm_self env _ r message_id target k hgm
      · rw [finishRecord_fs]
        exact hvac _ rfl

theorem processRecord_establishes (env : Env) (st : IngestState)
    (r : Fetched) (msg : EmailMsg) (k : String)
    (hfail : env.write_fail_paths = [])
    (hfs0 : ∀ pd ∈ st.fs, pd.2.x_gm_msgid ≠ some k)
    (hgm : gmKey r.gm_msgid = some k) :
    ∃ st', processRecord env st r msg = .ok st'
      ∧ DedupInv st' k (stepTarget env st r msg) := by
  unfold processRecord
  exact classifyAndWrite_establishes env st r _ _ _ _ _ _ _ k hfail hfs0 hgm

theorem stepRecord_establishes (env : Env) (st : IngestState) (r : Fetched)
    (msg : EmailMsg) (k : String)
    (hraw : r.raw = some (.wellFormed msg))
    (hw : wants_processing (canonicalize_labels r.gm_labels) = true)
    (hfail : env.write_fail_paths = [])
    (hfs0 : ∀ pd ∈ st.fs, pd.2.x_gm_msgid ≠ some k)
    (hgm : gmKey r.gm_msgid = some k) :
    ∃ st', stepRecord env st r = .ok st'
      ∧ DedupInv st' k (stepTarget env st r msg) := by
  unfold stepRecord
  rw [hraw]
  simp only [message_from_bytes]
  rw [if_neg (by simp [hw])]
  exact processRecord_establishes env st r msg k hfail hfs0 hgm

/-! ## Idempotence and checksum stability (claims C2 and C4) -/

/-- The date of a record with this `Date` header is determined by the
remote state alone: the header is present, nonempty and parseable, or
the fetch carried an `INTERNALDATE`.  When neither holds,
`parsedate_to_iso` falls back to the ingestion wall-clock time. -/
def dateResolvedHdr (hdr : Option String) (internaldate : Option Nat) : Bool :=
  (match hdr with
   | some h => h ≠ "" && (parseDateHdr h).isSome
   | none => false)
  || internaldate.isSome

/-- `dateResolvedHdr` for a parsed message. -/
def dateResolved (msg : EmailMsg) (internaldate : Option Nat) : Bool :=
  dateResolvedHdr msg.dateHdr internaldate

/-- A resolved date makes `parsedate_to_iso` independent of the
wall-clock instant. -/
theorem parsedate_stable_hdr (hdr : Option String) (internaldate : Option Nat)
    (now1 now2 : Nat) (hd : dateResolvedHdr hdr internaldate = true) :
    parsedate_to_iso hdr internaldate now1
      = parsedate_to_iso hdr internaldate now2 := by
  cases hdr with
  | none =>
    simp only [dateResolvedHdr, Bool.false_or] at hd
    obtain ⟨i, hi⟩ := Option.isSome_iff_exists.mp hd
    simp only [parsedate_to_iso]
    rw [hi]
    rfl
  | some h =>
    simp only [dateResolvedHdr] at hd
    simp only [parsedate_to_iso]
    by_cases hne : h = ""
    · simp only [if_pos hne]
      subst hne
      have hd2 : internaldate.isSome = true := by simpa using hd
      obtain ⟨i, hi⟩ := Option.isSome_iff_exists.mp hd2
      rw [hi]
      rfl
    · simp only [if_neg hne]
      cases hp : parseDateHdr h with
      | some d => rfl
      | none =>
        rw [hp] at hd
        simp only [Option.isSome_none, Bool.and_false, Bool.false_or] at hd
        obtain ⟨i, hi⟩ := Option.isSome_iff_exists.mp hd
        rw [hi]
        rfl

theorem parsedate_stable (msg : EmailMsg) (internaldate : Option Nat)
    (now1 now2 : Nat) (hd : dateResolved msg internaldate = true) :
    parsedate_to_iso msg.dateHdr internaldate now1
      = parsedate_to_iso msg.dateHdr internaldate now2 :=
  parsedate_stable_hdr msg.dateHdr internaldate now1 now2 hd

/-- A resolved date makes the whole canonical document independent of
the wall-clock instant (for runs over the same vault root). -/
theorem build_markdown_now_invariant (env1 env2 : Env) (msg : EmailMsg)
    (gl : List String) (gm gt idt : Option Nat)
    (hv : env1.vault_root = env2.vault_root)
    (hd : dateResolved msg idt = true) :
    build_markdown env1 msg gl gm gt idt = build_markdown env2 msg gl gm gt idt := by
  unfold build_markdown
  rw [parsedate_stable msg idt env1.now env2.now hd, hv]

/-- A resolved date makes the computed checksum independent of the run's
wall-clock instant and of the vault root. -/
theorem recordChecksum_now_invariant (env1 env2 : Env) (r : Fetched)
    (msg : EmailMsg) (hd : dateResolved msg r.internaldate = true) :
    recordChecksum env1 r msg = recordChecksum env2 r msg := by
  unfold recordChecksum build_markdown
  rw [parsedate_stable msg r.internaldate env1.now env2.now hd]

/-- The UNCHANGED transition: when the stored checksum at the target
equals the computed one, the classification logs the duplicate and
performs no write. -/
theorem classifyAndWrite_unchanged (env : Env) (st : IngestState)
    (r : Fetched) (existing : Option String) (idx1 : Index) (upd1 : Bool)
    (message_id target : String) (fdoc : FileDoc) (meta : Meta)
    (hdup : read_existing_checksum st.fs target = some meta.checksum) :
    classifyAndWrite env st r existing idx1 upd1 message_id target fdoc meta
      = .ok (finishRecord env
          { st with
            index := idx1,
            index_updated := upd1,
            log := st.log ++ [.duplicate target] } r message_id target meta) := by
  simp only [classifyAndWrite]
  rw [if_pos hdup]

/-- Under the processed-record hypotheses, a step is exactly the
processing of the parsed message. -/
theorem stepRecord_processed_eq (env : Env) (st : IngestState) (r : Fetched)
    (msg : EmailMsg) (hraw : r.raw = some (.wellFormed msg))
    (hw : wants_processing (canonicalize_labels r.gm_labels) = true) :
    stepRecord env st r = processRecord env st r msg := by
  unfold stepRecord
  rw [hraw]
  simp only [message_from_bytes]
  rw [if_neg (by simp [hw])]

/-- `processRecord` is `classifyAndWrite` at the resolved arguments. -/
theorem processRecord_eq (env : Env) (st : IngestState) (r : Fetched)
    (msg : EmailMsg) :
    processRecord env st r msg
      = classifyAndWrite env st r
          (resolveExisting st.fs st.index (gmKey r.gm_msgid) (recordMid msg)).1
          (resolveExisting st.fs st.index (gmKey r.gm_msgid) (recordMid msg)).2.1
          (st.index_updated
            || (resolveExisting st.fs st.index (gmKey r.gm_msgid) (recordMid msg)).2.2)
          (recordMid msg) (stepTarget env st r msg)
          (build_markdown env msg (canonicalize_labels r.gm_labels)
            r.gm_msgid r.gm_thrid r.internaldate).2.1
          (build_markdown env msg (canonicalize_labels r.gm_labels)
            r.gm_msgid r.gm_thrid r.internaldate).2.2 := rfl

/-- What a successful real-run classification guarantees for a record
with primary id `k`: the index maps `k` to the target, and the document
at the target carries the computed checksum. -/
theorem classifyAndWrite_ok_postDoc (env : Env) (st : IngestState)
    (r : Fetched) (existing : Option String) (idx1 : Index) (upd1 : Bool)
    (message_id target : String) (fdoc : FileDoc) (meta : Meta)
    (k : String) (st' : IngestState)
    (hdry : env.dry_run = false)
    (hgm : gmKey r.gm_msgid = some k)
    (hcs : fdoc.checksum = meta.checksum)
    (hstep : classifyAndWrite env st r existing idx1 upd1 message_id target
        fdoc meta = .ok st') :
    mget st'.index.by_gm_msgid k = some target
    ∧ read_existing_checksum st'.fs target = some meta.checksum := by
  simp only [classifyAndWrite] at hstep
  by_cases hdup : read_existing_checksum st.fs target = some meta.checksum
  · rw [if_pos hdup] at hstep
    have hst' := (Except.ok.injEq _ _).mp hstep
    subst hst'
    refine ⟨finishRecord_by_gm_self env _ r _ _ k hgm, ?_⟩
    rw [finishRecord_fs]
    exact hdup
  · rw [if_neg hdup, hdry] at hstep
    simp only [Bool.false_eq_true, if_false] at hstep
    by_cases hmem : target ∈ env.write_fail_paths
    · rw [if_pos hmem] at hstep
      cases hstep
    · rw [if_neg hmem] at hstep
      have hst' := (Except.ok.injEq _ _).mp hstep
      subst hst'
      refine ⟨finishRecord_by_gm_self env _ r _ _ k hgm, ?_⟩
      rw [finishRecord_fs]
      unfold read_existing_checksum
      rw [mget_mset_self]
      simp [hcs]

/-- What a successful real-run step guarantees for a record with primary
id `k`: the index maps `k` to the resolved target, and the document at
the target carries the computed checksum. -/
theorem stepRecord_ok_postDoc (env : Env) (st : IngestState) (r : Fetched)
    (msg : EmailMsg) (k : String) (st' : IngestState)
    (hraw : r.raw = some (.wellFormed msg))
    (hw : wants_processing (canonicalize_labels r.gm_labels) = true)
    (hdry : env.dry_run = false)
    (hgm : gmKey r.gm_msgid = some k)
    (hstep : stepRecord env st r = .ok st') :
    mget st'.index.by_gm_msgid k = some (stepTarget env st r msg)
    ∧ read_existing_checksum st'.fs (stepTarget env st r msg)
        = some (recordChecksum env r msg) := by
  rw [stepRecord_processed_eq env st r msg hraw hw, processRecord_eq] at hstep
  exact classifyAndWrite_ok_postDoc env st r _ _ _ _ _ _ _ k st' hdry hgm
    (build_markdown_fdoc_checksum env msg (canonicalize_labels r.gm_labels)
      r.gm_msgid r.gm_thrid r.internaldate) hstep

/-- A record whose stored checksum at the resolved target equals the
computed checksum is classified UNCHANGED: the duplicate is logged, no
write happens, and the processed counter still advances. -/
theorem stepRecord_unchanged (env : Env) (st : IngestState) (r : Fetched)
    (msg : EmailMsg)
    (hraw : r.raw = some (.wellFormed msg))
    (hw : wants_processing (canonicalize_labels r.gm_labels) = true)
    (hdup : read_existing_checksum st.fs (stepTarget env st r msg)
        = some (recordChecksum env r msg)) :
    ∃ st', stepRecord env st r = .ok st'
      ∧ st'.fs = st.fs
      ∧ st'.log = st.log ++ [.duplicate (stepTarget env st r msg)]
      ∧ st'.processed = st.processed + 1 := by
  rw [stepRecord_processed_eq env st r msg hraw hw, processRecord_eq]
  rw [classifyAndWrite_unchanged _ _ _ _ _ _ _ _ _ _ hdup]
  refine ⟨_, rfl, ?_, ?_, ?_⟩
  · rw [finishRecord_fs]
  · rw [finishRecord_log]
  · rw [finishRecord_processed]

/-- Re-processing a record against the state a successful real-run step
produced — possibly at a different wall-clock time, provided the
record's date is resolved by the remote state — finds the stored
checksum equal to the recomputed one: the second step is UNCHANGED and
writes nothing. -/
theorem second_run_duplicate (env1 env2 : Env) (st : IngestState)
    (r : Fetched) (msg : EmailMsg) (k : String) (st1 : IngestState)
    (hraw : r.raw = some (.wellFormed msg))
    (hw : wants_processing (canonicalize_labels r.gm_labels) = true)
    (hdry1 : env1.dry_run = false)
    (hgm : gmKey r.gm_msgid = some k)
    (hd : dateResolved msg r.internaldate = true)
    (hstep1 : stepRecord env1 st r = .ok st1) :
    ∃ st2, stepRecord env2 st1 r = .ok st2
      ∧ st2.fs = st1.fs
      ∧ st2.log = st1.log ++ [.duplicate (stepTarget env1 st r msg)] := by
  obtain ⟨hpost1, hpost2⟩ :=
    stepRecord_ok_postDoc env1 st r msg k st1 hraw hw hdry1 hgm hstep1
  have hres2 : resolveExisting st1.fs st1.index (gmKey r.gm_msgid)
      (recordMid msg) = (some (stepTarget env1 st r msg), st1.index, false) := by
    rw [hgm]
    exact resolve_primary_hit st1.fs st1.index k _ (recordMid msg) hpost1
  have htarget2 : stepTarget env2 st1 r msg = stepTarget env1 st r msg := by
    unfold stepTarget
    rw [hres2]
    rfl
  have hdup2 : read_existing_checksum st1.fs (stepTarget env2 st1 r msg)
      = some (recordChecksum env2 r msg) := by
    rw [htarget2, recordChecksum_now_invariant env2 env1 r msg hd]
    exact hpost2
  obtain ⟨st2, hstep2, hfs2, hlog2, _⟩ :=
    stepRecord_unchanged env2 st1 r msg hraw hw hdup2
  refine ⟨st2, hstep2, hfs2, ?_⟩
  rw [hlog2, htarget2]

/-! ## Write failures (claim C5) -/

/-- A write failure raises out of the classification: the error carries
the state as of the action log line, with no filesystem, legacy or
bookkeeping change. -/
theorem classifyAndWrite_write_fail (env : Env) (st : IngestState)
    (r : Fetched) (existing : Option String) (idx1 : Index) (upd1 : Bool)
    (message_id target : String) (fdoc : FileDoc) (meta : Meta)
    (hdup : ¬ read_existing_checksum st.fs target = some meta.checksum)
    (hdry : env.dry_run = false)
    (hmem : target ∈ env.write_fail_paths) :
    classifyAndWrite env st r existing idx1 upd1 message_id target fdoc meta
      = .error { st with
          index := idx1,
          index_updated := upd1,
          log := st.log ++ [.action
            (if (mget st.fs target).isSome then "Update" else "Write")
            existing.isSome target] } := by
  simp only [classifyAndWrite]
  rw [if_neg hdup, hdry]
  simp only [Bool.false_eq_true, if_false]
  rw [if_pos hmem]

/-- A failing document write aborts the step: the raised error state has
the original filesystem, legacy state and processed count; its index is
the (possibly scan-merged) lookup-phase index, and exactly the original
index when the lookup hit. -/
theorem stepRecord_write_fail (env : Env) (st : IngestState) (r : Fetched)
    (msg : EmailMsg)
    (hraw : r.raw = some (.wellFormed msg))
    (hw : wants_processing (canonicalize_labels r.gm_labels) = true)
    (hdup : ¬ read_existing_checksum st.fs (stepTarget env st r msg)
        = some (recordChecksum env r msg))
    (hdry : env.dry_run = false)
    (hmem : stepTarget env st r msg ∈ env.write_fail_paths) :
    ∃ st', stepRecord env st r = .error st'
      ∧ st'.fs = st.fs ∧ st'.legacy = st.legacy ∧ st'.processed = st.processed
      ∧ st'.index = (resolveExisting st.fs st.index (gmKey r.gm_msgid)
          (recordMid msg)).2.1
      ∧ (∀ p, lookup1 st.index (gmKey r.gm_msgid) (recordMid msg) = some p →
          st'.index = st.index) := by
  rw [stepRecord_processed_eq env st r msg hraw hw, processRecord_eq]
  rw [classifyAndWrite_write_fail _ _ _ _ _ _ _ _ _ _ hdup hdry hmem]
  refine ⟨_, rfl, rfl, rfl, rfl, rfl, ?_⟩
  intro p hp
  show (resolveExisting st.fs st.index (gmKey r.gm_msgid) (recordMid msg)).2.1
    = st.index
  unfold resolveExisting
  rw [hp]

/-- A step that raises aborts the whole remaining batch. -/
theorem runRecords_error_cons (env : Env) (st : IngestState) (r : Fetched)
    (rest : List Fetched) (e : IngestState)
    (hstep : stepRecord env st r = .error e) :
    runRecords env st (r :: rest) = .error e := by
  unfold runRecords
  rw [hstep]

/-- An aborted batch persists neither index nor legacy state. -/
theorem runIngest_error (env : Env) (st : IngestState) (recs : List Fetched)
    (e : IngestState) (hrun : runRecords env st recs = .error e) :
    runIngest env st recs = .error e := by
  unfold runIngest
  rw [hrun]

/-! ## Dry runs (claim C6) -/

theorem recordPrimary_set_fs (st : IngestState) (gmk : Option String)
    (t : String) (fs' : Fs) :
    recordPrimary { st with fs := fs' } gmk t
      = { recordPrimary st gmk t with fs := fs' } := by
  cases gmk with
  | none => rfl
  | some k =>
    simp only [recordPrimary]
    split <;> rfl

theorem recordSecondary_set_fs (st : IngestState) (mid t : String) (fs' : Fs) :
    recordSecondary { st with fs := fs' } mid t
      = { recordSecondary st mid t with fs := fs' } := by
  simp only [recordSecondary]
  split
  · rfl
  · split <;> rfl

theorem recordLegacy_set_fs (env : Env) (st : IngestState) (r : Fetched)
    (t : String) (meta : Meta) (fs' : Fs) :
    recordLegacy env { st with fs := fs' } r t meta
      = { recordLegacy env st r t meta with fs := fs' } := by
  simp only [recordLegacy]
  repeat' split
  all_goals rfl

/-- The bookkeeping commutes with replacing the filesystem component: it
never reads nor writes it. -/
theorem finishRecord_set_fs (env : Env) (st : IngestState) (r : Fetched)
    (mid t : String) (meta : Meta) (fs' : Fs) :
    finishRecord env { st with fs := fs' } r mid t meta
      = { finishRecord env st r mid t meta with fs := fs' } := by
  simp only [finishRecord]
  rw [recordPrimary_set_fs, recordSecondary_set_fs, recordLegacy_set_fs]

/-- The bookkeeping depends on the environment only through the vault
root (used for the legacy-state relative path). -/
theorem finishRecord_env_congr (env1 env2 : Env) (st : IngestState)
    (r : Fetched) (mid t : String) (meta : Meta)
    (hv : env1.vault_root = env2.vault_root) :
    finishRecord env1 st r mid t meta = finishRecord env2 st r mid t meta := by
  simp only [finishRecord, recordLegacy]
  rw [hv]

/-- The state after the `Update`/`Write` action line is logged. -/
def actionState (st : IngestState) (idx1 : Index) (upd1 : Bool)
    (existing : Option String) (target : String) : IngestState :=
  { st with
    index := idx1,
    index_updated := upd1,
    log := st.log ++ [.action
      (if (mget st.fs target).isSome then "Update" else "Write")
      existing.isSome target] }

/-- The changed-record dry-run transition: action logged, write skipped,
bookkeeping run. -/
theorem classifyAndWrite_dry_eq (env : Env) (st : IngestState) (r : Fetched)
    (existing : Option String) (idx1 : Index) (upd1 : Bool)
    (message_id target : String) (fdoc : FileDoc) (meta : Meta)
    (hdup : ¬ read_existing_checksum st.fs target = some meta.checksum)
    (hdry : env.dry_run = true) :
    classifyAndWrite env st r existing idx1 upd1 message_id target fdoc meta
      = .ok (finishRecord env (actionState st idx1 upd1 existing target)
          r message_id target meta) := by
  simp only [classifyAndWrite]
  rw [if_neg hdup, hdry]
  rfl

/-- The changed-record real-run transition: action logged, document
written, bookkeeping run. -/
theorem classifyAndWrite_write_eq (env : Env) (st : IngestState) (r : Fetched)
    (existing : Option String) (idx1 : Index) (upd1 : Bool)
    (message_id target : String) (fdoc : FileDoc) (meta : Meta)
    (hdup : ¬ read_existing_checksum st.fs target = some meta.checksum)
    (hdry : env.dry_run = false)
    (hmem : ¬ target ∈ env.write_fail_paths) :
    classifyAndWrite env st r existing idx1 upd1 message_id target fdoc meta
      = .ok (finishRecord env
          { actionState st idx1 upd1 existing target with
            fs := mset st.fs target fdoc }
          r message_id target meta) := by
  simp only [classifyAndWrite]
  rw [if_neg hdup, hdry]
  simp only [Bool.false_eq_true, if_false]
  rw [if_neg hmem]
  rfl

/-- From the same pre-state, a dry-run classification performs the same
classification, logging and bookkeeping as a real run and skips only the
filesystem write: both succeed, the dry state keeps the old filesystem,
and the two results agree on every component except the filesystem. -/
theorem classifyAndWrite_dry_vs_real (envD envR : Env) (st : IngestState)
    (r : Fetched) (existing : Option String) (idx1 : Index) (upd1 : Bool)
    (message_id target : String) (fdoc : FileDoc) (meta : Meta)
    (hD : envD.dry_run = true) (hR : envR.dry_run = false)
    (hv : envD.vault_root = envR.vault_root)
    (hfailR : envR.write_fail_paths = []) :
    ∃ stD stR,
      classifyAndWrite envD st r existing idx1 upd1 message_id target fdoc
          meta = .ok stD
      ∧ classifyAndWrite envR st r existing idx1 upd1 message_id target fdoc
          meta = .ok stR
      ∧ stD.fs = st.fs
      ∧ stD.index = stR.index ∧ stD.index_updated = stR.index_updated
      ∧ stD.legacy = stR.legacy ∧ stD.log = stR.log
      ∧ stD.processed = stR.processed := by
  by_cases hdup : read_existing_checksum st.fs target = some meta.checksum
  · refine ⟨_, _,
      classifyAndWrite_unchanged envD st r existing idx1 upd1 _ _ _ _ hdup,
      classifyAndWrite_unchanged envR st r existing idx1 upd1 _ _ _ _ hdup,
      ?_, ?_, ?_, ?_, ?_, ?_⟩
    · rw [finishRecord_fs]
    all_goals rw [finishRecord_env_congr envR envD _ r _ _ _ hv.symm]
  · have hmem : ¬ target ∈ envR.write_fail_paths := by
      rw [hfailR]
      exact List.not_mem_nil target
    have hset := finishRecord_set_fs envR
      (actionState st idx1 upd1 existing target) r message_id target meta
      (mset st.fs target fdoc)
    have henv := finishRecord_env_congr envR envD
      (actionState st idx1 upd1 existing target) r message_id target meta
      hv.symm
    refine ⟨_, _,
      classifyAndWrite_dry_eq envD st r existing idx1 upd1 _ _ _ _ hdup hD,
      classifyAndWrite_write_eq envR st r existing idx1 upd1 _ _ _ _ hdup hR
        hmem,
      ?_, ?_, ?_, ?_, ?_, ?_⟩
    · rw [finishRecord_fs]
      rfl
    all_goals rw [hset, henv]

/-- The canonical document depends on the environment only through the
vault root and the wall-clock instant. -/
theorem build_markdown_env_congr (env1 env2 : Env) (msg : EmailMsg)
    (gl : List String) (gm gt idt : Option Nat)
    (hv : env1.vault_root = env2.vault_root) (hn : env1.now = env2.now) :
    build_markdown env1 msg gl gm gt idt = build_markdown env2 msg gl gm gt idt := by
  unfold build_markdown
  rw [hv, hn]

/-- From the same pre-state, a dry-run step performs the same
classification, logging, index mutation and bookkeeping as a real-run
step over the same vault and instant, and leaves the filesystem
untouched. -/
theorem stepRecord_dry_vs_real (envD envR : Env) (st : IngestState)
    (r : Fetched)
    (hD : envD.dry_run = true) (hR : envR.dry_run = false)
    (hv : envD.vault_root = envR.vault_root) (hn : envD.now = envR.now)
    (hfailR : envR.write_fail_paths = []) :
    ∃ stD stR,
      stepRecord envD st r = .ok stD
      ∧ stepRecord envR st r = .ok stR
      ∧ stD.fs = st.fs
      ∧ stD.index = stR.index ∧ stD.index_updated = stR.index_updated
      ∧ stD.legacy = stR.legacy ∧ stD.log = stR.log
      ∧ stD.processed = stR.processed := by
  rcases hraw : r.raw with _ | raw
  · have he : ∀ env, stepRecord env st r
        = .ok { st with log := st.log ++ [.noBody r.uid] } := by
      intro env
      unfold stepRecord
      rw [hraw]
    exact ⟨_, _, he envD, he envR, rfl, rfl, rfl, rfl, rfl, rfl⟩
  · rcases raw with msg | _
    · by_cases hw : wants_processing (canonicalize_labels r.gm_labels) = true
      · have hbm : build_markdown envD msg (canonicalize_labels r.gm_labels)
            r.gm_msgid r.gm_thrid r.internaldate
            = build_markdown envR msg (canonicalize_labels r.gm_labels)
              r.gm_msgid r.gm_thrid r.internaldate :=
          build_markdown_env_congr envD envR msg _ _ _ _ hv hn
        have htg : stepTarget envD st r msg = stepTarget envR st r msg := by
          unfold stepTarget
          rw [hbm]
        have heD := stepRecord_processed_eq envD st r msg hraw hw
        have heR := stepRecord_processed_eq envR st r msg hraw hw
        rw [heD, heR, processRecord_eq, processRecord_eq, hbm, htg]
        exact classifyAndWrite_dry_vs_real envD envR st r _ _ _ _ _ _ _
          hD hR hv hfailR
      · have he : ∀ env, stepRecord env st r
            = .ok { st with log := st.log ++ [.skipNoLabels r.uid] } := by
          intro env
          unfold stepRecord
          rw [hraw]
          simp only [message_from_bytes]
          rw [if_pos (by simp [hw])]
        exact ⟨_, _, he envD, he envR, rfl, rfl, rfl, rfl, rfl, rfl⟩
    · have he : ∀ env, stepRecord env st r
          = .ok { st with log := st.log ++ [.parseError r.uid] } := by
        intro env
        unfold stepRecord
        rw [hraw]
        simp only [message_from_bytes]
      exact ⟨_, _, he envD, he envR, rfl, rfl, rfl, rfl, rfl, rfl⟩

/-- A dry-run step always succeeds and leaves the filesystem untouched. -/
theorem stepRecord_dry_ok (env : Env) (st : IngestState) (r : Fetched)
    (hdry : env.dry_run = true) :
    ∃ st', stepRecord env st r = .ok st' ∧ st'.fs = st.fs := by
  rcases hraw : r.raw with _ | raw
  · exact ⟨{ st with log := st.log ++ [.noBody r.uid] },
      by unfold stepRecord; rw [hraw], rfl⟩
  · rcases raw with msg | _
    · by_cases hw : wants_processing (canonicalize_labels r.gm_labels) = true
      · rw [stepRecord_processed_eq env st r msg hraw hw, processRecord_eq]
        by_cases hdup : read_existing_checksum st.fs (stepTarget env st r msg)
            = some (recordChecksum env r msg)
        · rw [classifyAndWrite_unchanged _ _ _ _ _ _ _ _ _ _ hdup]
          exact ⟨_, rfl, by rw [finishRecord_fs]⟩
        · rw [classifyAndWrite_dry_eq _ _ _ _ _ _ _ _ _ _ hdup hdry]
          refine ⟨_, rfl, ?_⟩
          rw [finishRecord_fs]
          rfl
      · refine ⟨{ st with log := st.log ++ [.skipNoLabels r.uid] }, ?_, rfl⟩
        unfold stepRecord
        rw [hraw]
        simp only [message_from_bytes]
        rw [if_pos (by simp [hw])]
    · refine ⟨{ st with log := st.log ++ [.parseError r.uid] }, ?_, rfl⟩
      unfold stepRecord
      rw [hraw]
      simp only [message_from_bytes]

/-- A dry-run batch always completes and leaves the filesystem
untouched. -/
theorem runRecords_dry (env : Env) (hdry : env.dry_run = true) :
    ∀ (recs : List Fetched) (st : IngestState),
      ∃ stf, runRecords env st recs = .ok stf ∧ stf.fs = st.fs := by
  intro recs
  induction recs with
  | nil => intro st; exact ⟨st, rfl, rfl⟩
  | cons r rest ih =>
    intro st
    obtain ⟨st', hstep, hfs⟩ := stepRecord_dry_ok env st r hdry
    obtain ⟨stf, hrun, hfs'⟩ := ih st'
    refine ⟨stf, ?_, hfs.symm ▸ hfs'⟩
    unfold runRecords
    rw [hstep]
    exact hrun

/-- A dry run persists nothing: the filesystem is untouched and neither
the index file nor the legacy state file is written back. -/
theorem runIngest_dry (env : Env) (st : IngestState) (recs : List Fetched)
    (hdry : env.dry_run = true) :
    ∃ res, runIngest env st recs = .ok res
      ∧ res.final.fs = st.fs
      ∧ res.savedIndex = none ∧ res.savedLegacy = none := by
  obtain ⟨stf, hrun, hfs⟩ := runRecords_dry env hdry recs st
  refine ⟨_, by unfold runIngest; rw [hrun], hfs, ?_, ?_⟩
  · show (if stf.index_updated ∧ ¬env.dry_run then some stf.index else none)
      = none
    rw [hdry]
    simp
  · show (if ¬env.dry_run then some stf.legacy else none) = none
    rw [hdry]
    simp

/-! ## Properties of label canonicalization -/

/-- The insert-if-new step of `canonicalize_labels`, on already
canonicalized names. -/
def insDedup (out : List String) (x : String) : List String :=
  if x ∈ out then out else out ++ [x]

theorem foldl_insDedup_eq (l : List String) :
    ∀ (acc : List String),
      l.foldl insDedup acc
        = acc ++ dedupFirst (l.filter (fun b => decide (b ∉ acc))) := by
  induction l with
  | nil => intro acc; simp [dedupFirst]
  | cons a l ih =>
    intro acc
    by_cases ha : a ∈ acc
    · have e1 : insDedup acc a = acc := by simp [insDedup, ha]
      have e2 : (a :: l).filter (fun b => decide (b ∉ acc))
          = l.filter (fun b => decide (b ∉ acc)) := by
        rw [List.filter_cons]
        simp [ha]
      rw [List.foldl_cons, e1, e2, ih acc]
    · have e1 : insDedup acc a = acc ++ [a] := by simp [insDedup, ha]
      have e2 : (a :: l).filter (fun b => decide (b ∉ acc))
          = a :: l.filter (fun b => decide (b ∉ acc)) := by
        rw [List.filter_cons]
        simp [ha]
      rw [List.foldl_cons, e1, ih (acc ++ [a]), e2, dedupFirst]
      have e3 : (l.filter (fun b => decide (b ∉ acc ++ [a])))
          = (l.filter (fun b => decide (b ∉ acc))).filter (fun b => decide (b ≠ a)) := by
        rw [List.filter_filter]
        apply List.filter_congr
        intro x _
        by_cases h1 : x = a
        · simp [h1]
        · by_cases h2 : x ∈ acc <;> simp [h1, h2]
      rw [e3, List.append_assoc, List.singleton_append]

theorem canonicalize_labels_eq_dedupFirst (ls : List String) :
    canonicalize_labels ls = dedupFirst (ls.map canon1) := by
  unfold canonicalize_labels
  have e0 : (fun (out : List String) (lbl : String) =>
      let l := canon1 lbl
      if l ∈ out then out else out ++ [l]) = (fun out lbl => insDedup out (canon1 lbl)) := by
    funext out lbl
    simp [insDedup]
  rw [e0, ← List.foldl_map canon1 insDedup, foldl_insDedup_eq]
  have e1 : (ls.map canon1).filter (fun b => decide (b ∉ ([] : List String)))
      = ls.map canon1 := by
    apply List.filter_eq_self.mpr
    intro x _
    simp
  rw [e1, List.nil_append]

theorem dedupFirst_nodup : ∀ (l : List String), (dedupFirst l).Nodup
  | [] => by rw [dedupFirst]; exact List.nodup_nil
  | a :: l => by
    rw [dedupFirst]
    apply List.Nodup.cons
    · intro hmem
      have : ∀ (m : List String) (x : String), x ∈ dedupFirst m → x ∈ m := by
        intro m
        induction m using dedupFirst.induct with
        | case1 => intro x h; rw [dedupFirst] at h; exact absurd h (List.not_mem_nil x)
        | case2 b m ih =>
          intro x h
          rw [dedupFirst] at h
          rcases List.mem_cons.mp h with h | h
          · exact h ▸ List.mem_cons_self _ _
          · exact List.mem_cons_of_mem _ (List.mem_of_mem_filter (ih x h))
      have h2 := this _ a hmem
      have h3 := List.of_mem_filter h2
      simp at h3
    · exact dedupFirst_nodup (l.filter (fun b => b ≠ a))
  termination_by l => l.length
  decreasing_by
    simp only [List.length_cons]
    exact Nat.lt_succ_of_le (List.length_filter_le _ _)

theorem mem_dedupFirst : ∀ (l : List String) (x : String), x ∈ l → x ∈ dedupFirst l := by
  intro l
  induction l using dedupFirst.induct with
  | case1 => intro x h; exact absurd h (List.not_mem_nil x)
  | case2 b m ih =>
    intro x h
    rw [dedupFirst]

    rcases List.mem_cons.mp h with h | h
    · exact h ▸ List.mem_cons_self _ _
    · by_cases hb : x = b
      · exact hb ▸ List.mem_cons_self _ _
      · exact List.mem_cons_of_mem _ (ih x (List.mem_filter.mpr ⟨h, by simp [hb]⟩))

/-- C1: for every identity processed by the mail ingester, at most one
persisted document exists at any time.  Stated as the deduplication
invariant for a primary key `k` bound to location `loc`: (1) any record
with primary id `k` — whatever its secondary id `mid` — resolves through
the index (primary mapping first) to the same `target_location` `loc`
without even scanning; (2) every step of the loop preserves the
invariant, so no write for identity `k` ever happens away from `loc` (no
second document is created for a seen identifier); (3) a whole batch
preserves it; and (4) processing a record whose primary id no persisted
document claims establishes the invariant at the record's resolved
target. -/
theorem C1_identity_stability (env : Env) (k : String)
    (hfail : env.write_fail_paths = []) :
    (∀ (st : IngestState) (loc mid : String), DedupInv st k loc →
        lookup1 st.index (some k) mid = some loc
        ∧ resolveExisting st.fs st.index (some k) mid = (some loc, st.index, false))
    ∧ (∀ (st : IngestState) (loc : String) (r : Fetched), DedupInv st k loc →
        ∃ st', stepRecord env st r = .ok st' ∧ DedupInv st' k loc)
    ∧ (∀ (st : IngestState) (loc : String) (recs : List Fetched),
        DedupInv st k loc →
          ∃ stf, runRecords env st recs = .ok stf ∧ DedupInv stf k loc)
    ∧ (∀ (st : IngestState) (r : Fetched) (msg : EmailMsg),
        r.raw = some (.wellFormed msg) →
        wants_processing (canonicalize_labels r.gm_labels) = true →
        (∀ pd ∈ st.fs, pd.2.x_gm_msgid ≠ some k) →
        gmKey r.gm_msgid = some k →
          ∃ st', stepRecord env st r = .ok st'
            ∧ DedupInv st' k (stepTarget env st r msg)) := by
  refine ⟨?_, ?_, ?_, ?_⟩
  · intro st loc mid hinv
    exact ⟨lookup1_primary_hit st.index k loc mid hinv.1,
      resolve_primary_hit st.fs st.index k loc mid hinv.1⟩
  · intro st loc r hinv
    exact stepRecord_preserves env st r k loc hfail hinv
  · intro st loc recs hinv
    exact runRecords_preserves env k loc hfail recs st hinv
  · intro st r msg hraw hw hfs0 hgm
    exact stepRecord_establishes env st r msg k hraw hw hfail hfs0 hgm

/-- A persisted document used by the C1 witness. -/
def docW : FileDoc :=
  { checksum := "sha256:w", message_id := some "m1", x_gm_msgid := some "5" }

/-- A state satisfying the deduplication invariant for key `5`. -/
def stW : IngestState :=
  { fs := [("/v/Emails/old.md", docW)],
    index := { by_gm_msgid := [("5", "/v/Emails/old.md")],
               by_message_id := [("m1", "/v/Emails/old.md")] },
    legacy := [], index_updated := false, processed := 0, log := [] }

/-- A normal-run configuration used by the witnesses. -/
def envW : Env :=
  { vault_root := "/v", dry_run := false, write_fail_paths := [], now := 50 }

/-- A parsed message used by the witnesses. -/
def msgW : EmailMsg :=
  { subject := some "Hello", fromH := some "a@x.com", toH := some "b@y.com",
    ccH := none, messageIdHdr := some "<m2@x>", dateHdr := some "1000",
    multipart := false, parts := [⟨none, "text/plain", "body"⟩],
    rawString := "raw" }

/-- A fetched record with primary id 5 and a different secondary id. -/
def recW : Fetched :=
  { uid := 1, raw := some (.wellFormed msgW), gm_labels := ["Save"],
    gm_msgid := some 5, gm_thrid := none, internaldate := some 10 }

/-- Witness for C1: at a concrete invariant-satisfying state, a record
with primary id 5 and a different secondary id resolves to the existing
location, and one step keeps the invariant. -/
theorem C1_identity_stability_witness :
    (lookup1 stW.index (some "5") "other-mid" = some "/v/Emails/old.md"
      ∧ resolveExisting stW.fs stW.index (some "5") "other-mid"
          = (some "/v/Emails/old.md", stW.index, false))
    ∧ (∃ st', stepRecord envW stW recW = .ok st'
        ∧ DedupInv st' "5" "/v/Emails/old.md") := by
  have h := C1_identity_stability envW "5" rfl
  exact ⟨h.1 stW "/v/Emails/old.md" "other-mid" (by decide),
    h.2.1 stW "/v/Emails/old.md" recW (by decide)⟩

/-- The empty initial state: no documents, empty index, empty legacy
state. -/
def st0W : IngestState :=
  { fs := [], index := emptyIndex, legacy := [], index_updated := false,
    processed := 0, log := [] }

/-- The witness configuration at a later wall-clock instant. -/
def envW2 : Env := { envW with now := 99 }

/-- The witness configuration with the dry-run flag set. -/
def envDryW : Env := { envW with dry_run := true }

/-- A message with no `Date` header, no `Message-ID`, fetched without an
`INTERNALDATE`: its date falls back to the ingestion wall-clock time. -/
def msgND : EmailMsg :=
  { subject := some "Hello", fromH := some "a@x.com", toH := some "b@y.com",
    ccH := none, messageIdHdr := none, dateHdr := none,
    multipart := false, parts := [⟨none, "text/plain", "body"⟩],
    rawString := "raw" }

/-- A dateless fetched record with primary id 7. -/
def recND : Fetched :=
  { uid := 2, raw := some (.wellFormed msgND), gm_labels := ["Save"],
    gm_msgid := some 7, gm_thrid := none, internaldate := none }

/-- C2 (amended): mail ingestion is idempotent per record, provided the
record's date is determined by the remote state (`Date` header or
internal date) rather than the ingestion-time fallback.  First: any
record whose stored checksum at the resolved target equals the newly
computed checksum is classified UNCHANGED — the duplicate is logged and
no write occurs.  Second: after a successful real-run step, re-running
the same record (at any later wall-clock time) is classified UNCHANGED
and performs zero additional document writes. -/
theorem C2_idempotent :
    (∀ (env : Env) (st : IngestState) (r : Fetched) (msg : EmailMsg),
      r.raw = some (.wellFormed msg) →
      wants_processing (canonicalize_labels r.gm_labels) = true →
      read_existing_checksum st.fs (stepTarget env st r msg)
          = some (recordChecksum env r msg) →
      ∃ st', stepRecord env st r = .ok st'
        ∧ st'.fs = st.fs
        ∧ st'.log = st.log ++ [.duplicate (stepTarget env st r msg)])
    ∧ (∀ (env1 env2 : Env) (st : IngestState) (r : Fetched) (msg : EmailMsg)
        (k : String) (st1 : IngestState),
      r.raw = some (.wellFormed msg) →
      wants_processing (canonicalize_labels r.gm_labels) = true →
      env1.dry_run = false →
      gmKey r.gm_msgid = some k →
      dateResolved msg r.internaldate = true →
      stepRecord env1 st r = .ok st1 →
      ∃ st2, stepRecord env2 st1 r = .ok st2
        ∧ st2.fs = st1.fs
        ∧ st2.log = st1.log ++ [.duplicate (stepTarget env1 st r msg)]) := by
  constructor
  · intro env st r msg hraw hw hdup
    obtain ⟨st', h1, h2, h3, _⟩ := stepRecord_unchanged env st r msg hraw hw hdup
    exact ⟨st', h1, h2, h3⟩
  · intro env1 env2 st r msg k st1 hraw hw hdry hgm hd hstep
    exact second_run_duplicate env1 env2 st r msg k st1 hraw hw hdry hgm hd hstep

/-- Witness for C2: a dated record ingested from the empty state and
then re-processed at a later wall-clock instant: the second step writes
nothing and logs the duplicate. -/
theorem C2_idempotent_witness :
    ∃ st1 st2, stepRecord envW st0W recW = .ok st1
      ∧ stepRecord envW2 st1 recW = .ok st2
      ∧ st2.fs = st1.fs
      ∧ st2.log = st1.log ++ [.duplicate (stepTarget envW st0W recW msgW)] := by
  obtain ⟨st1, hstep1⟩ : ∃ x, stepRecord envW st0W recW = .ok x := ⟨_, rfl⟩
  obtain ⟨st2, h2, h3, h4⟩ := C2_idempotent.2 envW envW2 st0W recW msgW "5" st1
    rfl (by decide) rfl (by decide) (by decide) hstep1
  exact ⟨st1, st2, hstep1, h2, h3, h4⟩

/-- Run one record through two consecutive steps (two runs): `none` when
either step raises; otherwise whether the second step left the
persisted-document store unchanged. -/
def twoStepsFsUnchanged (env1 env2 : Env) (st : IngestState) (r : Fetched) :
    Option Bool :=
  match stepRecord env1 st r with
  | .error _ => none
  | .ok st1 =>
    match stepRecord env2 st1 r with
    | .error _ => none
    | .ok st2 => some (decide (st2.fs = st1.fs))

/-- Counterexample for C2 as stated: for a record with neither a `Date`
header nor an internal date, the second run computes a different
checksum (the date field is the ingestion time) and performs an
additional document write (the store changes on the second step). -/
theorem C2_counterexample :
    twoStepsFsUnchanged envW envW2 st0W recND = some false
    ∧ recordChecksum envW2 recND msgND ≠ recordChecksum envW recND msgND := by
  constructor
  · decide
  · decide

/-- C4 (amended): the checksum excludes the ingestion wall-clock time —
two runs over identical remote state compute the same checksum whenever
the record's date is derived from its `Date` header or internal date;
the `ingested_at` header field never enters the checksum payload. -/
theorem C4_checksum_excludes_ingestion_time (env1 env2 : Env) (r : Fetched)
    (msg : EmailMsg) (hd : dateResolved msg r.internaldate = true) :
    recordChecksum env1 r msg = recordChecksum env2 r msg :=
  recordChecksum_now_invariant env1 env2 r msg hd

/-- Witness for C4: the dated witness record hashes identically at two
wall-clock instants. -/
theorem C4_checksum_excludes_ingestion_time_witness :
    recordChecksum envW recW msgW = recordChecksum envW2 recW msgW :=
  C4_checksum_excludes_ingestion_time envW envW2 recW msgW (by decide)

/-- Counterexample for C4 as stated: a message with no `Date` header
fetched without an internal date takes the wall-clock time as its date,
and two runs over this identical remote state compute different
checksums. -/
theorem C4_counterexample :
    dateResolved msgND recND.internaldate = false
    ∧ recordChecksum envW recND msgND ≠ recordChecksum envW2 recND msgND := by
  constructor
  · decide
  · decide

/-- C3: the checksum is invariant under field reordering — for every
payload and every permutation of the order in which its (distinct-keyed)
fields are assembled, `checksum_for` computes the same digest, because the
serialization sorts the fields by key. -/
theorem C3_checksum_order_independent (p q : Payload) (hperm : p.Perm q)
    (hkeys : (p.map Prod.fst).Nodup) : checksum_for p = checksum_for q := by
  unfold checksum_for dumps
  rw [insertionSort_eq_of_perm p q hperm hkeys]

/-- Witness for C3 at a concrete two-field payload and its reversal. -/
theorem C3_checksum_order_independent_witness :
    checksum_for [("subject", PVal.s "a"), ("body", PVal.s "b")]
      = checksum_for [("body", PVal.s "b"), ("subject", PVal.s "a")] :=
  C3_checksum_order_independent
    [("subject", PVal.s "a"), ("body", PVal.s "b")]
    [("body", PVal.s "b"), ("subject", PVal.s "a")]
    (by decide) (by decide)

/-- C9: `canonicalize_labels` maps each raw label through the fixed alias
table and deduplicates preserving first-seen order — the output is
exactly the first-occurrence deduplication of the canonicalized name
list, it has no duplicates, and when the input contains both a legacy
name and its canonical replacement the canonical label appears exactly
once. -/
theorem C9_label_aliasing (ls : List String) (legacy canonical : String)
    (hleg : mget LABEL_ALIASES (pyStrip legacy) = some canonical)
    (h1 : legacy ∈ ls) (_h2 : canonical ∈ ls) :
    canonicalize_labels ls = dedupFirst (ls.map canon1)
    ∧ (canonicalize_labels ls).Nodup
    ∧ (canonicalize_labels ls).count canonical = 1 := by
  have heq := canonicalize_labels_eq_dedupFirst ls
  have hnodup : (canonicalize_labels ls).Nodup := heq ▸ dedupFirst_nodup _
  refine ⟨heq, hnodup, ?_⟩
  have hc1 : canon1 legacy = canonical := by
    unfold canon1
    rw [hleg]
    rfl
  have hmem : canonical ∈ canonicalize_labels ls := by
    rw [heq]
    exact mem_dedupFirst _ _ (hc1 ▸ List.mem_map_of_mem canon1 h1)
  have hle : (canonicalize_labels ls).count canonical ≤ 1 :=
    List.nodup_iff_count_le_one.mp hnodup canonical
  have hge : 0 < (canonicalize_labels ls).count canonical :=
    List.count_pos_iff.mpr hmem
  omega

/-- Witness for C9 on a list containing the legacy `AI/Ingest` and its
canonical replacement `Save`. -/
theorem C9_label_aliasing_witness :
    canonicalize_labels ["AI/Ingest", "Save", "Other"]
      = dedupFirst (["AI/Ingest", "Save", "Other"].map canon1)
    ∧ (canonicalize_labels ["AI/Ingest", "Save", "Other"]).Nodup
    ∧ (canonicalize_labels ["AI/Ingest", "Save", "Other"]).count "Save" = 1 :=
  C9_label_aliasing ["AI/Ingest", "Save", "Other"] "AI/Ingest" "Save"
    (by decide) (by decide) (by decide)

/-- The witness configuration whose write to the witness record's target
path fails. -/
def envF : Env :=
  { envW with write_fail_paths := ["/v/Emails/1970/Q170/hello-5.md"] }

/-- A second, healthy record following the failing one in the batch. -/
def recW9 : Fetched :=
  { recW with uid := 3, gm_msgid := some 9 }

/-- Run a batch and observe an abort: `none` when the batch completes,
else the raised state's processed count and persisted-document count. -/
def runAborts (env : Env) (st : IngestState) (recs : List Fetched) :
    Option (Nat × Nat) :=
  match runRecords env st recs with
  | .error e => some (e.processed, e.fs.length)
  | .ok _ => none

/-- Run a batch under two configurations and compare the final logs:
`none` when either run aborts. -/
def dryRealLogsAgree (env1 env2 : Env) (st : IngestState)
    (recs : List Fetched) : Option Bool :=
  match runRecords env1 st recs, runRecords env2 st recs with
  | .ok a, .ok b => some (decide (a.log = b.log))
  | _, _ => none

/-- C5 (amended): a failing document write is not caught anywhere: the
step raises with the state as of the pre-write action log line — the
document store, the legacy state and the processed count are unchanged,
the log gains only that action line (no failure entry), and when the
dedupe lookup had hit, the index is exactly the original one, so no
mapping to the failed location was recorded.  The raise aborts the
remaining batch, and neither the index file nor the legacy state file is
persisted. -/
theorem C5_write_failure_aborts (env : Env) (st : IngestState) (r : Fetched)
    (msg : EmailMsg) (rest : List Fetched)
    (hraw : r.raw = some (.wellFormed msg))
    (hw : wants_processing (canonicalize_labels r.gm_labels) = true)
    (hdup : ¬ read_existing_checksum st.fs (stepTarget env st r msg)
        = some (recordChecksum env r msg))
    (hdry : env.dry_run = false)
    (hmem : stepTarget env st r msg ∈ env.write_fail_paths) :
    ∃ st', stepRecord env st r = .error st'
      ∧ runRecords env st (r :: rest) = .error st'
      ∧ runIngest env st (r :: rest) = .error st'
      ∧ st'.fs = st.fs ∧ st'.legacy = st.legacy
      ∧ st'.processed = st.processed
      ∧ (∀ p, lookup1 st.index (gmKey r.gm_msgid) (recordMid msg) = some p →
          st'.index = st.index)
      ∧ st'.log = st.log ++ [.action
          (if (mget st.fs (stepTarget env st r msg)).isSome then "Update"
            else "Write")
          (resolveExisting st.fs st.index (gmKey r.gm_msgid)
            (recordMid msg)).1.isSome
          (stepTarget env st r msg)] := by
  have hstep : stepRecord env st r = .error { st with
      index := (resolveExisting st.fs st.index (gmKey r.gm_msgid)
        (recordMid msg)).2.1,
      index_updated := st.index_updated
        || (resolveExisting st.fs st.index (gmKey r.gm_msgid)
            (recordMid msg)).2.2,
      log := st.log ++ [.action
        (if (mget st.fs (stepTarget env st r msg)).isSome then "Update"
          else "Write")
        (resolveExisting st.fs st.index (gmKey r.gm_msgid)
          (recordMid msg)).1.isSome
        (stepTarget env st r msg)] } := by
    rw [stepRecord_processed_eq env st r msg hraw hw, processRecord_eq]
    rw [classifyAndWrite_write_fail _ _ _ _ _ _ _ _ _ _ hdup hdry hmem]
  have hrun := runRecords_error_cons env st r rest _ hstep
  refine ⟨_, hstep, hrun, runIngest_error env st (r :: rest) _ hrun,
    rfl, rfl, rfl, ?_, rfl⟩
  intro p hp
  show (resolveExisting st.fs st.index (gmKey r.gm_msgid) (recordMid msg)).2.1
    = st.index
  unfold resolveExisting
  rw [hp]

/-- Witness for C5: under `envF` the witness record's document write
fails; its step raises and aborts the two-record batch. -/
theorem C5_write_failure_aborts_witness :
    ∃ st', stepRecord envF st0W recW = .error st'
      ∧ runRecords envF st0W (recW :: [recW9]) = .error st'
      ∧ runIngest envF st0W (recW :: [recW9]) = .error st'
      ∧ st'.fs = st0W.fs ∧ st'.legacy = st0W.legacy
      ∧ st'.processed = st0W.processed
      ∧ (∀ p, lookup1 st0W.index (gmKey recW.gm_msgid) (recordMid msgW)
            = some p → st'.index = st0W.index)
      ∧ st'.log = st0W.log ++ [.action
          (if (mget st0W.fs (stepTarget envF st0W recW msgW)).isSome
            then "Update" else "Write")
          (resolveExisting st0W.fs st0W.index (gmKey recW.gm_msgid)
            (recordMid msgW)).1.isSome
          (stepTarget envF st0W recW msgW)] :=
  C5_write_failure_aborts envF st0W recW msgW [recW9] rfl (by decide)
    (by decide) rfl (by decide)

/-- Counterexample for C5 as stated: with a failing first record and a
healthy second record, the run aborts before completing either — the
raised state has processed count 0 and an empty document store, so the
remaining batch was not processed. -/
theorem C5_counterexample :
    runAborts envF st0W [recW, recW9] = some (0, 0) := by decide

/-- C6 (amended): under the dry-run flag no filesystem write occurs — a
run leaves the document store untouched and persists neither the index
file nor the legacy state file — and, from a shared pre-state, a single
dry-run step performs exactly the in-memory state transitions (index,
dirty flag, legacy state, processed count) and logging of a real-run
step over the same vault and instant.  Across a whole batch the dry run
is not a faithful simulation of the real run's logging (see the
counterexample). -/
theorem C6_dry_run_no_writes (envD envR : Env) (st : IngestState)
    (r : Fetched) (recs : List Fetched)
    (hD : envD.dry_run = true) (hR : envR.dry_run = false)
    (hv : envD.vault_root = envR.vault_root) (hn : envD.now = envR.now)
    (hfailR : envR.write_fail_paths = []) :
    (∃ res, runIngest envD st recs = .ok res
      ∧ res.final.fs = st.fs
      ∧ res.savedIndex = none ∧ res.savedLegacy = none)
    ∧ (∃ stD stR, stepRecord envD st r = .ok stD
      ∧ stepRecord envR st r = .ok stR
      ∧ stD.fs = st.fs
      ∧ stD.index = stR.index ∧ stD.index_updated = stR.index_updated
      ∧ stD.legacy = stR.legacy ∧ stD.log = stR.log
      ∧ stD.processed = stR.processed) :=
  ⟨runIngest_dry envD st recs hD,
    stepRecord_dry_vs_real envD envR st r hD hR hv hn hfailR⟩

/-- Witness for C6 at the dry and real witness configurations, the empty
initial state and the witness record. -/
theorem C6_dry_run_no_writes_witness :
    (∃ res, runIngest envDryW st0W [recW] = .ok res
      ∧ res.final.fs = st0W.fs
      ∧ res.savedIndex = none ∧ res.savedLegacy = none)
    ∧ (∃ stD stR, stepRecord envDryW st0W recW = .ok stD
      ∧ stepRecord envW st0W recW = .ok stR
      ∧ stD.fs = st0W.fs
      ∧ stD.index = stR.index ∧ stD.index_updated = stR.index_updated
      ∧ stD.legacy = stR.legacy ∧ stD.log = stR.log
      ∧ stD.processed = stR.processed) :=
  C6_dry_run_no_writes envDryW envW st0W recW [recW] rfl rfl rfl rfl rfl

/-- Counterexample for C6 as stated: over a batch repeating one record,
the dry run's log diverges from the real run's — the real run classifies
the repeat as a duplicate of the document written for the first
occurrence, while the dry run (which wrote nothing) classifies it as a
fresh write again. -/
theorem C6_counterexample :
    dryRealLogsAgree envDryW envW st0W [recW, recW] = some false := by decide

end ImapIngest

namespace DailyBriefing

open PyModel

/-! ## `fetch_today_events.py`: the per-event filter and formatter -/

/-- One attendee record of a calendar event. -/
structure Attendee where
  email : Option String
  responseStatus : Option String
deriving DecidableEq, Repr

/-- One calendar event, with the fields the script reads.  Missing JSON
keys are `none`. -/
structure CalEvent where
  eventType : Option String
  attendees : List Attendee
  startDateTime : Option String
  startDate : Option String
  endDateTime : Option String
  endDate : Option String
  summary : Option String
  id : Option String
  location : Option String
  description : Option String
  organizerEmail : Option String
  status : Option String
  htmlLink : Option String
deriving DecidableEq, Repr

/-- Python truthiness of an optional string: `None` and `""` are falsy. -/
def truthy (a : Option String) : Option String :=
  match a with
  | some s => if s = "" then none else some s
  | none => none

/-- `x or y` over two optional string fields (`start.get('dateTime') or
start.get('date')`). -/
def pyOrOpt (a b : Option String) : Option String :=
  match truthy a with
  | some s => some s
  | none => truthy b

/-- `is_user_invited`: an event with no attendee list is included; else
the user must appear (case-insensitively) among the attendee emails. -/
def is_user_invited (e : CalEvent) (user : String) : Bool :=
  match e.attendees with
  | [] => true
  | atts => atts.any (fun a => sLower (a.email.getD "") = sLower user)

/-- `has_user_declined`: the first attendee whose email matches the user
decides; true exactly when that attendee's `responseStatus` is
`declined`. -/
def has_user_declined (e : CalEvent) (user : String) : Bool :=
  match e.attendees.find? (fun a => sLower (a.email.getD "") = sLower user) with
  | some a => a.responseStatus = some "declined"
  | none => false

/-- Modelled from the spec: parsing of an event start string by the
external `datetime` library (`fromisoformat` for strings containing `T`,
`strptime('%Y-%m-%d')` otherwise, timezone normalization dropped in the
abstract-tick model): the digits of the string, read as a tick count,
with ISO punctuation (`T`, `Z`, `-`, `:`, `+`, `.`) ignored; a string
with any other non-digit character fails to parse (raises
`ValueError`). -/
def parseEventTime (s : String) : Option Nat :=
  let keep := s.data.filter (fun c =>
    !(c = 'T' || c = 'Z' || c = '-' || c = ':' || c = '+' || c = '.'))
  if keep ≠ [] ∧ keep.all Char.isDigit then
    some (keep.foldl (fun n c => n * 10 + (c.toNat - 48)) 0)
  else none

/-- Modelled from the spec: the local calendar-date rendering
(`strftime('%Y-%m-%d')`) of an instant, abstracted as the decimal day
number of the tick count. -/
def dateStrOf (t : Nat) : String := toString (t / 86400)

/-- Modelled from the spec: the local time-of-day rendering
(`strftime('%H:%M:%S')`) of an instant, abstracted as the decimal
second-of-day of the tick count. -/
def timeStrOf (t : Nat) : String := toString (t % 86400)

/-- `format_datetime`: date-only strings keep their text with time
`00:00:00`; datetime strings parse and render, or yield `('', '')` on a
`ValueError`. -/
def format_datetime (s : Option String) : String × String :=
  match s with
  | none => ("", "")
  | some ds =>
    if ds = "" then ("", "")
    else if sContainsChar ds 'T' then
      match parseEventTime ds with
      | some t => (dateStrOf t, timeStrOf t)
      | none => ("", "")
    else (ds, "00:00:00")

/-- `get_accepted_attendees`: emails of attendees whose response status
(defaulting to `needsAction`) is `accepted` or `tentative`; attendees
with a falsy email are dropped. -/
def get_accepted_attendees (e : CalEvent) : List String :=
  e.attendees.foldl (fun acc a =>
    if a.responseStatus.getD "needsAction" = "accepted"
        ∨ a.responseStatus.getD "needsAction" = "tentative" then
      match truthy a.email with
      | some em => acc ++ [em]
      | none => acc
    else acc) []

/-- One formatted output event (the JSON object built per kept event). -/
structure FormattedEvent where
  date : String
  start_time : String
  end_time : String
  title : String
  accepted_attendees : List String
  event_id : String
  location : String
  description : String
  organizer : String
  status : String
  html_link : String
deriving DecidableEq, Repr

/-- The formatting block of the loop: `format_datetime` on start and
end, the all-day fix-up, and the output field assembly. -/
def formatEvent (e : CalEvent) : FormattedEvent :=
  let st := format_datetime (pyOrOpt e.startDateTime e.startDate)
  let en := format_datetime (pyOrOpt e.endDateTime e.endDate)
  let fixed :=
    if st.2 = "" ∨ st.2 = "00:00:00" then
      if (truthy e.startDate).isSome then ("00:00:00", "23:59:59")
      else (st.2, en.2)
    else (st.2, en.2)
  { date := st.1,
    start_time := fixed.1,
    end_time := fixed.2,
    title := e.summary.getD "No Title",
    accepted_attendees := get_accepted_attendees e,
    event_id := e.id.getD "",
    location := e.location.getD "",
    description := e.description.getD "",
    organizer := e.organizerEmail.getD "",
    status := e.status.getD "",
    html_link := e.htmlLink.getD "" }

/-- The event-start string used by the decline check
(`event.get('start', {}).get('dateTime') or ...get('date')`). -/
def startRaw (e : CalEvent) : Option String :=
  pyOrOpt e.startDateTime e.startDate

/-- The keep/skip decision of the per-event loop: skip `workingLocation`
events, skip events the user is not invited to, and skip events that are
declined and start in the future; a start string that fails to parse is
ignored (`except ValueError: pass`) and the event is kept. -/
def keepEvent (now : Nat) (user : String) (e : CalEvent) : Bool :=
  if e.eventType = some "workingLocation" then false
  else if ¬ is_user_invited e user then false
  else
    match startRaw e with
    | none => true
    | some s =>
      match parseEventTime s with
      | none => true
      | some t => ¬ (now < t ∧ has_user_declined e user)

/-- The filtering loop of `fetch_today_events`: each fetched event is
kept or skipped by `keepEvent` and the kept events are formatted, in
order. -/
def processEvents (now : Nat) (user : String) (events : List CalEvent) :
    List FormattedEvent :=
  (events.filter (keepEvent now user)).map formatEvent

/-- A user with a declined response is among the attendees, hence
invited. -/
theorem invited_of_declined (e : CalEvent) (user : String)
    (h : has_user_declined e user = true) : is_user_invited e user = true := by
  unfold has_user_declined at h
  rcases hf : e.attendees.find?
      (fun a => sLower (a.email.getD "") = sLower user) with _ | a
  · rw [hf] at h
    cases h
  · have hmem := List.mem_of_find?_eq_some hf
    have hpred := List.find?_some hf
    unfold is_user_invited
    cases hatt : e.attendees with
    | nil =>
      rw [hatt] at hmem
    | cons x xs =>
      rw [hatt] at hmem
      exact List.any_eq_true.mpr ⟨a, hmem, hpred⟩

/-- C8 (amended): for every calendar event other than a working-location
event, with a parseable start instant, in which the acting user's
attendee response status is `declined`: a start in the future excludes
the event from the output, and a start in the past (or at the current
instant) retains it. -/
theorem C8_declined_filter (now : Nat) (user : String) (e : CalEvent)
    (s : String) (t : Nat)
    (hwl : ¬ e.eventType = some "workingLocation")
    (hs : startRaw e = some s)
    (ht : parseEventTime s = some t)
    (hdecl : has_user_declined e user = true) :
    (now < t → keepEvent now user e = false)
    ∧ (t ≤ now → keepEvent now user e = true) := by
  have hinv := invited_of_declined e user hdecl
  constructor <;> intro h
  · simp only [keepEvent, hs, ht, if_neg hwl, hinv]
    simp [hdecl, h]
  · simp only [keepEvent, hs, ht, if_neg hwl, hinv]
    simp [hdecl]
    exact h

/-- A declined event with a parseable start used by the C8 witness. -/
def eDecl : CalEvent :=
  { eventType := none,
    attendees := [{ email := some "u@x.com", responseStatus := some "declined" }],
    startDateTime := some "500", startDate := none,
    endDateTime := some "600", endDate := none,
    summary := some "Standup", id := some "e1", location := none,
    description := none, organizerEmail := some "o@x.com",
    status := some "confirmed", htmlLink := none }

/-- Witness for C8: the declined event starting at instant 500 is
excluded at current instant 100 and retained at current instant 1000. -/
theorem C8_declined_filter_witness :
    keepEvent 100 "u@x.com" eDecl = false
    ∧ keepEvent 1000 "u@x.com" eDecl = true :=
  ⟨(C8_declined_filter 100 "u@x.com" eDecl "500" 500 (by decide) (by decide)
      (by decide) (by decide)).1 (by decide),
    (C8_declined_filter 1000 "u@x.com" eDecl "500" 500 (by decide) (by decide)
      (by decide) (by decide)).2 (by decide)⟩

/-- The same declined past event as a working-location event. -/
def eWL : CalEvent := { eDecl with eventType := some "workingLocation" }

/-- Counterexample for C8 as stated: a past declined working-location
event is excluded from the output, not retained — the working-location
skip precedes the decline logic. -/
theorem C8_counterexample :
    has_user_declined eWL "u@x.com" = true
    ∧ parseEventTime "500" = some 500
    ∧ keepEvent 1000 "u@x.com" eWL = false
    ∧ processEvents 1000 "u@x.com" [eWL] = [] := by decide

end DailyBriefing

namespace YtExtract

open PyModel

/-! ## `youtube_transcript_extractor.py`: URL parsing and the CLI check -/

/-- The components of `urllib.parse.urlparse(url)` that
`extract_video_id` reads: the (lower-cased, possibly absent) hostname,
the path, and the query string. -/
structure ParsedUrl where
  hostname : Option String
  path : String
  query : String
deriving DecidableEq, Repr

/-- `parse_qs(query).get('v', [None])[0]`: the first value of the `v`
query parameter.  Pieces without `=` and empty values are dropped
(`keep_blank_values` is false). -/
def parse_qs_v (q : String) : Option String :=
  ((splitOnChar '&' q).filterMap (fun kv =>
    match splitOnChar '=' kv with
    | [] => none
    | [_] => none
    | k :: v1 :: vs =>
      let v := String.intercalate "=" (v1 :: vs)
      if k = "v" ∧ v ≠ "" then some v else none)).head?

/-- `extract_video_id`: the `v` parameter for `youtube.com/watch`, the
second path segment for `youtube.com/embed/...`, the path for
`youtu.be`, and `None` for everything else. -/
def extract_video_id (u : ParsedUrl) : Option String :=
  if u.hostname = some "www.youtube.com" ∨ u.hostname = some "youtube.com" then
    if u.path = "/watch" then parse_qs_v u.query
    else if sStartsWith u.path "/embed/" then
      some ((splitOnChar '/' u.path).getD 2 "")
    else none
  else if u.hostname = some "youtu.be" then some (sDrop u.path 1)
  else none

/-- The invalid-URL check of `main`: `if not video_id:` report the error
and `sys.exit(1)`.  Returns the exit code of the early exit, or `none`
when extraction proceeds. -/
def cli_invalid_exit (u : ParsedUrl) : Option Nat :=
  match extract_video_id u with
  | none => some 1
  | some v => if v = "" then some 1 else none

/-- Modelled from the spec: the scheme characters of `urllib.parse`
(letters, digits, `+`, `-`, `.`). -/
def isSchemeChar (c : Char) : Bool :=
  c.isAlphanum || c = '+' || c = '-' || c = '.'

/-- Modelled from the spec: the scheme strip of `urlsplit` — when the
first `:` comes after a nonempty run of scheme characters, everything up
to and including it is removed. -/
def dropScheme (cs : List Char) : List Char :=
  let pre := cs.takeWhile (fun c => ¬ c = ':')
  if pre.length < cs.length ∧ pre ≠ [] ∧ pre.all isSchemeChar then
    cs.drop (pre.length + 1)
  else cs

/-- Modelled from the spec: the authority split of `urlsplit` — after a
leading `//` the authority runs to the next `/`, `?` or `#`; an
authority containing exactly one of `[` and `]` makes `urlsplit` raise
`ValueError("Invalid IPv6 URL")`, modelled as `none`. -/
def netlocSplit (cs : List Char) : Option (List Char × List Char) :=
  match cs with
  | '/' :: '/' :: rest =>
    let netloc := rest.takeWhile (fun c => ¬ (c = '/' ∨ c = '?' ∨ c = '#'))
    if (netloc.contains '[') ≠ (netloc.contains ']') then none
    else some (netloc, rest.drop netloc.length)
  | _ => some ([], cs)

/-- Modelled from the spec: the `hostname` property of a parse result —
the part of the authority after a last `@`, taken inside the brackets
when bracketed and up to a `:` otherwise, lower-cased; `None` when
empty. -/
def hostOf (netloc : List Char) : Option String :=
  let hostinfo := (splitCharList '@' netloc).getLastD []
  let hostname :=
    if hostinfo.contains '[' then
      ((hostinfo.dropWhile (fun c => ¬ c = '[')).drop 1).takeWhile
        (fun c => ¬ c = ']')
    else hostinfo.takeWhile (fun c => ¬ c = ':')
  if hostname = [] then none else some (sLower (String.mk hostname))

/-- Modelled from the spec: `urllib.parse.urlparse`, restricted to the
components `extract_video_id` reads.  The scheme is stripped, the
authority is split off and its brackets checked (an unmatched bracket
raises `ValueError`, returned as `none`), a `#` fragment is dropped, and
the remainder splits into path and query at the first `?`. -/
def urlparse (url : String) : Option ParsedUrl :=
  match netlocSplit (dropScheme url.data) with
  | none => none
  | some (netloc, rest) =>
    let noFrag := rest.takeWhile (fun c => ¬ c = '#')
    let path := noFrag.takeWhile (fun c => ¬ c = '?')
    some ⟨hostOf netloc, String.mk path,
      String.mk (noFrag.drop (path.length + 1))⟩

/-- `extract_video_id` on the raw URL string, including the parse step:
`none` is the `ValueError` raised out of `urlparse`; `some r` is the
function returning `r`. -/
def extract_video_id_str (url : String) : Option (Option String) :=
  (urlparse url).map extract_video_id

/-- The invalid-URL check of `main` on the raw URL string: `none` when
`urlparse` raises out of `extract_video_id` (the call sits outside any
`try`, so the exception propagates and the CLI dies with a traceback),
`some (some 1)` for the handled invalid-URL exit, and `some none` when
extraction proceeds. -/
def cli_invalid_exit_str (url : String) : Option (Option Nat) :=
  (urlparse url).map cli_invalid_exit

/-- A non-YouTube URL used by the C10 witness. -/
def urlX : ParsedUrl :=
  { hostname := some "example.com", path := "/stuff", query := "" }

/-- C10 (amended): `extract_video_id` does not return for every input
string: a URL whose authority contains an unmatched bracket makes
`urlparse`, called inside it, raise `ValueError`, and `main` does not
catch it — the CLI dies with a traceback instead of reporting the
invalid-URL error (see the counterexample).  For every input string
`urlparse` accepts, extraction completes and returns an identifier only
for the three supported URL shapes: any other hostname yields `None`,
as does a `youtube.com` URL whose path is neither `/watch` nor an
`/embed/` path, and whenever `None` is returned the CLI reports the
invalid URL and exits with status 1. -/
theorem C10_invalid_url_exits (url : String) (u : ParsedUrl)
    (hp : urlparse url = some u) :
    (u.hostname ≠ some "www.youtube.com" → u.hostname ≠ some "youtube.com" →
      u.hostname ≠ some "youtu.be" → extract_video_id_str url = some none)
    ∧ ((u.hostname = some "www.youtube.com" ∨ u.hostname = some "youtube.com") →
      u.path ≠ "/watch" → sStartsWith u.path "/embed/" = false →
      extract_video_id_str url = some none)
    ∧ (extract_video_id u = none → cli_invalid_exit_str url = some (some 1)) := by
  refine ⟨?_, ?_, ?_⟩
  · intro h1 h2 h3
    have hnone : extract_video_id u = none := by
      unfold extract_video_id
      rw [if_neg (by simp [h1, h2]), if_neg h3]
    unfold extract_video_id_str
    rw [hp]
    show some (extract_video_id u) = some none
    rw [hnone]
  · intro hh hp2 he
    have hnone : extract_video_id u = none := by
      unfold extract_video_id
      rw [if_pos hh, if_neg hp2, if_neg (by simp [he])]
    unfold extract_video_id_str
    rw [hp]
    show some (extract_video_id u) = some none
    rw [hnone]
  · intro hn
    unfold cli_invalid_exit_str
    rw [hp]
    show some (cli_invalid_exit u) = some (some 1)
    unfold cli_invalid_exit
    rw [hn]

/-- Witness for C10: `https://example.com/stuff` parses to the
non-YouTube host `example.com`, no video id is extracted, and the CLI
exits with status 1. -/
theorem C10_invalid_url_exits_witness :
    urlparse "https://example.com/stuff" = some urlX
    ∧ extract_video_id_str "https://example.com/stuff" = some none
    ∧ cli_invalid_exit_str "https://example.com/stuff" = some (some 1) :=
  ⟨by decide,
    (C10_invalid_url_exits "https://example.com/stuff" urlX (by decide)).1
      (by decide) (by decide) (by decide),
    (C10_invalid_url_exits "https://example.com/stuff" urlX (by decide)).2.2
      (by decide)⟩

/-- Counterexample for C10 as stated: `extract_video_id` does not return
without raising for every input string — the authority of
`https://[::1` contains an unmatched bracket, so `urlparse` raises
`ValueError` inside it, the exception propagates uncaught through
`main`, and the CLI never reaches the handled invalid-URL exit. -/
theorem C10_counterexample :
    urlparse "https://[::1" = none
    ∧ extract_video_id_str "https://[::1" = none
    ∧ cli_invalid_exit_str "https://[::1" = none := by decide

end YtExtract

/-! ## Per-record parse errors across the two ingesters (claim C7) -/

/-- C7 (amended): in the mail ingester an unreadable remote record — one
with no body payload or whose bytes fail to parse — is logged and
skipped, and after any successful step the loop continues with the next
record; in the calendar briefing, however, an otherwise kept event whose
start timestamp fails to parse is silently retained in the output (the
`ValueError` is swallowed), not skipped. -/
theorem C7_parse_error_handling :
    (∀ (env : ImapIngest.Env) (st : ImapIngest.IngestState)
        (r : ImapIngest.Fetched),
      r.raw = none →
        ImapIngest.stepRecord env st r
          = .ok { st with log := st.log ++ [.noBody r.uid] })
    ∧ (∀ (env : ImapIngest.Env) (st : ImapIngest.IngestState)
        (r : ImapIngest.Fetched),
      r.raw = some .malformed →
        ImapIngest.stepRecord env st r
          = .ok { st with log := st.log ++ [.parseError r.uid] })
    ∧ (∀ (env : ImapIngest.Env) (st st' : ImapIngest.IngestState)
        (r : ImapIngest.Fetched) (rest : List ImapIngest.Fetched),
      ImapIngest.stepRecord env st r = .ok st' →
        ImapIngest.runRecords env st (r :: rest)
          = ImapIngest.runRecords env st' rest)
    ∧ (∀ (now : Nat) (user : String) (e : DailyBriefing.CalEvent) (s : String),
      ¬ e.eventType = some "workingLocation" →
      DailyBriefing.is_user_invited e user = true →
      DailyBriefing.startRaw e = some s →
      DailyBriefing.parseEventTime s = none →
        DailyBriefing.keepEvent now user e = true) := by
  refine ⟨?_, ?_, ?_, ?_⟩
  · intro env st r hraw
    unfold ImapIngest.stepRecord
    rw [hraw]
  · intro env st r hraw
    unfold ImapIngest.stepRecord
    rw [hraw]
    simp only [ImapIngest.message_from_bytes]
  · intro env st st' r rest hstep
    simp only [ImapIngest.runRecords]
    rw [hstep]
  · intro now user e s hwl hinv hs ht
    simp only [DailyBriefing.keepEvent, hs, ht, if_neg hwl, hinv]
    simp

/-- Witness for C7: a bodyless mail record and a malformed mail record
are logged and skipped with the batch continuing, while the calendar
event with the unparseable start `soonTish` is retained. -/
theorem C7_parse_error_handling_witness :
    ImapIngest.stepRecord ImapIngest.envW ImapIngest.st0W
        { ImapIngest.recW with raw := none }
      = .ok { ImapIngest.st0W with
          log := ImapIngest.st0W.log ++ [.noBody ImapIngest.recW.uid] }
    ∧ ImapIngest.stepRecord ImapIngest.envW ImapIngest.st0W
        { ImapIngest.recW with raw := some .malformed }
      = .ok { ImapIngest.st0W with
          log := ImapIngest.st0W.log ++ [.parseError ImapIngest.recW.uid] }
    ∧ DailyBriefing.keepEvent 100 "u@x.com"
        { DailyBriefing.eDecl with startDateTime := some "soonTish" } = true :=
  ⟨C7_parse_error_handling.1 ImapIngest.envW ImapIngest.st0W
      { ImapIngest.recW with raw := none } rfl,
    C7_parse_error_handling.2.1 ImapIngest.envW ImapIngest.st0W
      { ImapIngest.recW with raw := some .malformed } rfl,
    C7_parse_error_handling.2.2.2 100 "u@x.com"
      { DailyBriefing.eDecl with startDateTime := some "soonTish" } "soonTish"
      (by decide) (by decide) (by decide) (by decide)⟩

/-- A declined future event whose start timestamp is malformed. -/
def eBadTs : DailyBriefing.CalEvent :=
  { DailyBriefing.eDecl with startDateTime := some "soonTish" }

/-- Counterexample for C7 as stated: a calendar event with a malformed
start timestamp — here one the user even declined — is not skipped: it
is retained and appears formatted in the output. -/
theorem C7_counterexample :
    DailyBriefing.parseEventTime "soonTish" = none
    ∧ DailyBriefing.has_user_declined eBadTs "u@x.com" = true
    ∧ DailyBriefing.processEvents 100 "u@x.com" [eBadTs]
        = [DailyBriefing.formatEvent eBadTs] := by decide
